import Mathlib

/-!
Shallow embedding of the GLSL entry-point legalization pass
(source/slang/slang-ir-glsl-legalize.cpp) and proofs of the
specification claims about it.

The IR is modelled structurally: instructions carry an id, an opcode,
a type and a snapshot of their operand instructions; machine pointers
become ids; the mutating pass becomes explicit state passing, with
assertion failures and SLANG_UNEXPECTED aborts modelled as
Except.error.  Functions keep the names of the C++ functions they
embed.
-/

namespace SlangGLSL

/-- Shader stages (subset of Slang Stage used by this pass). -/
inductive Stage where
  | vertex | hull | domain | geometry | fragment | compute
  | anyHit | callable | closestHit | intersection | miss | rayGeneration
  deriving DecidableEq, Repr

/-- GLSL profile versions the pass can require. -/
inductive ProfileVersion where
  | glsl150 | glsl430 | glsl450
  deriving DecidableEq, Repr

/-- Layout resource kinds relevant to varying legalization. -/
inductive LayoutResourceKind where
  | varyingInput
  | varyingOutput
  | uniformRes
  deriving DecidableEq, Repr

/-- Basic (scalar) IR types used by the system-value table. -/
inductive BaseType where
  | boolT | intT | uintT | floatT
  deriving DecidableEq, Repr

/-- IR types.  Array element counts are modelled as the Nat the code
extracts with GetIntVal; struct fields pair a struct-key id with the
field type.  Out and InOut are the pointer-like wrappers
(IROutTypeBase); ptr is a plain pointer (IRPtrType). -/
inductive IRType where
  | voidT
  | basic (b : BaseType)
  | vec (elem : IRType) (n : Nat)
  | matrixT (elem : IRType) (rows cols : Nat)
  | arrayT (elem : IRType) (n : Nat)
  | outT (value : IRType)
  | inOutT (value : IRType)
  | ptrT (value : IRType)
  | streamOutT (elem : IRType)
  | structT (tag : Nat) (fields : List (Nat × IRType))
  | funcT (params : List IRType) (result : IRType)

mutual

/-- Structural type equality, standing in for isTypeEqual in the C++
source (deduplicated IR types compare by pointer there). -/
def IRType.beq : IRType → IRType → Bool
  | .voidT, .voidT => true
  | .basic a, .basic b => a = b
  | .vec e1 n1, .vec e2 n2 => IRType.beq e1 e2 && n1 = n2
  | .matrixT e1 r1 c1, .matrixT e2 r2 c2 => IRType.beq e1 e2 && r1 = r2 && c1 = c2
  | .arrayT e1 n1, .arrayT e2 n2 => IRType.beq e1 e2 && n1 = n2
  | .outT a, .outT b => IRType.beq a b
  | .inOutT a, .inOutT b => IRType.beq a b
  | .ptrT a, .ptrT b => IRType.beq a b
  | .streamOutT a, .streamOutT b => IRType.beq a b
  | .structT t1 f1, .structT t2 f2 => t1 = t2 && IRType.beqFields f1 f2
  | .funcT p1 r1, .funcT p2 r2 => IRType.beqList p1 p2 && IRType.beq r1 r2
  | _, _ => false

/-- Field-list equality for IRType.beq. -/
def IRType.beqFields : List (Nat × IRType) → List (Nat × IRType) → Bool
  | [], [] => true
  | (k1, t1) :: r1, (k2, t2) :: r2 =>
      k1 = k2 && IRType.beq t1 t2 && IRType.beqFields r1 r2
  | _, _ => false

/-- Type-list equality for IRType.beq. -/
def IRType.beqList : List IRType → List IRType → Bool
  | [], [] => true
  | t1 :: r1, t2 :: r2 => IRType.beq t1 t2 && IRType.beqList r1 r2
  | _, _ => false

end

/-- isTypeEqual from the source. -/
def isTypeEqual (a b : IRType) : Bool := IRType.beq a b

/-- The pointee of a pointer-like type (IRPtrTypeBase), if any. -/
def ptrValueType : IRType → Option IRType
  | .outT t => some t
  | .inOutT t => some t
  | .ptrT t => some t
  | _ => none

/-- Rebuild a pointer-like type with the same opcode around a new
pointee, as getPtrType(ptrType->op, fieldType) does. -/
def samePtrKind (ptrTy newValue : IRType) : Option IRType :=
  match ptrTy with
  | .outT _ => some (.outT newValue)
  | .inOutT _ => some (.inOutT newValue)
  | .ptrT _ => some (.ptrT newValue)
  | _ => none

/-- The value type of an out or in-out wrapper (as IROutTypeBase). -/
def outTypeBaseValue : IRType → Option IRType
  | .outT t => some t
  | .inOutT t => some t
  | _ => none

/-- The element type of a geometry-stream output type
(IRHLSLStreamOutputType). -/
def streamOutputElem : IRType → Option IRType
  | .streamOutT e => some e
  | _ => none

/-- Field type lookup in a struct type, embedding getFieldType; the
SLANG_UNEXPECTED("no such field") branch becomes an error. -/
def getFieldType (baseType : IRType) (fieldKey : Nat) : Except String IRType :=
  match baseType with
  | .structT _ fields =>
    match fields.lookup fieldKey with
    | some t => .ok t
    | none => .error "no such field"
  | _ => .error "no such field"

/-- A resource-info entry of a layout: kind, index and count. -/
structure ResInfo where
  kind : LayoutResourceKind
  index : Nat
  count : Nat
  deriving DecidableEq, Repr

/-- Find the first resource info for a kind. -/
def findResInfo (l : List ResInfo) (k : LayoutResourceKind) : Option ResInfo :=
  l.find? (fun r => r.kind = k)

/-- The per-variable metadata of a VarLayout other than its type
layout (kept separate so that type layouts and var layouts need not be
mutually inductive). -/
structure VarLayoutCore where
  varDeclLoc : Nat
  flags : Nat
  systemValueSemantic : String
  systemValueSemanticIndex : Nat
  semanticName : String
  semanticIndex : Nat
  stage : Nat
  resInfos : List ResInfo
  deriving Repr

/-- Type layouts mirroring the type tree.  Struct fields carry the
field VarLayout as a core plus its own type layout. -/
inductive TypeLayout where
  | basicTL (rules : Nat) (resInfos : List ResInfo)
  | arrayTL (rules : Nat) (resInfos : List ResInfo) (elementTypeLayout : TypeLayout)
  | streamTL (rules : Nat) (resInfos : List ResInfo) (elementTypeLayout : TypeLayout)
  | structTL (rules : Nat) (resInfos : List ResInfo)
      (fields : List (VarLayoutCore × TypeLayout))
  deriving Repr

/-- The layout rules handle of a type layout. -/
def TypeLayout.rules : TypeLayout → Nat
  | .basicTL r _ => r
  | .arrayTL r _ _ => r
  | .streamTL r _ _ => r
  | .structTL r _ _ => r

/-- The resource infos of a type layout. -/
def TypeLayout.resInfos : TypeLayout → List ResInfo
  | .basicTL _ ri => ri
  | .arrayTL _ ri _ => ri
  | .streamTL _ ri _ => ri
  | .structTL _ ri _ => ri

/-- FindResourceInfo on a type layout. -/
def TypeLayout.findResourceInfo (tl : TypeLayout) (k : LayoutResourceKind) :
    Option ResInfo :=
  findResInfo tl.resInfos k

/-- A VarLayout: per-variable metadata plus the layout of its type. -/
structure VarLayout where
  core : VarLayoutCore
  typeLayout : TypeLayout
  deriving Repr

/-- FindResourceInfo on a var layout. -/
def VarLayout.findResourceInfo (v : VarLayout) (k : LayoutResourceKind) :
    Option ResInfo :=
  findResInfo v.core.resInfos k

/-- The entry-point layout attached to the entry-point function:
its stage (from the profile) and the layout of its result. -/
structure EntryPointLayout where
  stage : Stage
  resultLayout : VarLayout
  deriving Repr

/-- Diagnostic codes emitted by the pass. -/
inductive DiagnosticCode where
  | unknownSystemValueSemantic
  deriving DecidableEq, Repr

/-- An emitted diagnostic: source location and code. -/
structure Diagnostic where
  loc : Nat
  code : DiagnosticCode
  deriving DecidableEq, Repr

/-- The payload of an IRLayoutDecoration; as-casts select the variant. -/
inductive LayoutPayload where
  | varL (v : VarLayout)
  | entryPointL (e : EntryPointLayout)
  deriving Repr

/-- Decorations attached to instructions (and to the entry-point
function). The target-intrinsic decoration carries the target name and
the definition text. -/
inductive Decoration where
  | layoutDec (l : LayoutPayload)
  | importNameDec (name : String)
  | glslOuterArrayDec (name : String)
  | dependsOnDec (id : Nat)
  | targetIntrinsicDec (target : String) (defn : String)
  deriving Repr

/-- Find the first layout decoration, as findDecoration of
IRLayoutDecoration does. -/
def findLayoutDecoration (ds : List Decoration) : Option LayoutPayload :=
  ds.findSome? fun d =>
    match d with
    | .layoutDec l => some l
    | _ => none

/-- findTargetIntrinsicDecoration: first target-intrinsic decoration
for the given target. -/
def findTargetIntrinsicDecoration (ds : List Decoration) (target : String) :
    Option (String × String) :=
  ds.findSome? fun d =>
    match d with
    | .targetIntrinsicDec t defn => if t = target then some (t, defn) else none
    | _ => none

/-- The callee operand of a call, carried structurally so the
specialize and generic unwrapping loop can be embedded (in the real IR
these are instructions reached through operand pointers). -/
inductive CalleeExpr where
  | funcRef (decorations : List Decoration)
  | specialize (inner : CalleeExpr)
  | generic (result : Option CalleeExpr)
  | otherCallee
  deriving Repr

/-- Instruction opcodes created or inspected by the pass. -/
inductive IROp where
  | globalParam
  | varOp
  | load
  | store
  | fieldExtract (key : Nat)
  | fieldAddress (key : Nat)
  | elementExtract
  | elementAddress
  | construct
  | makeArray
  | undefined
  | returnVal
  | returnVoid
  | call (callee : CalleeExpr)
  | intConst (v : Nat)
  | other (tag : Nat)
  deriving Repr

/-- An IR instruction: id, opcode, data type, and operand snapshots
(the real IR holds pointers; operand identity is the id field). -/
inductive Inst where
  | mk (id : Nat) (op : IROp) (type : IRType) (operands : List Inst)

/-- The id of an instruction. -/
def Inst.id : Inst → Nat
  | .mk i _ _ _ => i

/-- The opcode of an instruction. -/
def Inst.op : Inst → IROp
  | .mk _ o _ _ => o

/-- The data type of an instruction (getDataType / getFullType). -/
def Inst.type : Inst → IRType
  | .mk _ _ t _ => t

/-- The operand list of an instruction. -/
def Inst.operands : Inst → List Inst
  | .mk _ _ _ os => os

/-- getOperand. -/
def Inst.getOperand (i : Inst) (n : Nat) : Option Inst :=
  i.operands.get? n

/-- The ScalarizedVal sum type: the legalized form of an aggregate
value.  Tuple elements pair a struct-key id with the element value. -/
inductive ScalarizedVal where
  | none
  | value (irValue : Inst)
  | address (irValue : Inst)
  | tuple (type : IRType) (elements : List (Nat × ScalarizedVal))
  | typeAdapter (val : ScalarizedVal) (actualType : IRType) (pretendType : IRType)

/-- Flavor discriminator of a ScalarizedVal. -/
def ScalarizedVal.isNone : ScalarizedVal → Bool
  | .none => true
  | _ => false

/-- Flavor discriminator: is this the value flavor? -/
def ScalarizedVal.isValue : ScalarizedVal → Bool
  | .value _ => true
  | _ => false

/-- Flavor discriminator: is this the address flavor? -/
def ScalarizedVal.isAddress : ScalarizedVal → Bool
  | .address _ => true
  | _ => false

/-- Pass-global mutable context: the fresh-id counter of the shared
builder, the module's created global parameters in creation order
(addGlobalParam plus moveValueBefore the function), decorations added
to created instructions keyed by instruction id, and the extension
tracker and diagnostic sink contents. -/
structure St where
  fresh : Nat
  globalParams : List Inst
  decorations : List (Nat × Decoration)
  extensions : List String
  versions : List ProfileVersion
  diags : List Diagnostic

/-- Allocate a fresh instruction. -/
def freshInst (st : St) (op : IROp) (ty : IRType) (operands : List Inst) :
    Inst × St :=
  (.mk st.fresh op ty operands, { st with fresh := st.fresh + 1 })

/-- addGlobalParam followed by moveValueBefore(func): create a global
shader parameter and give it its place in the module before the
function. -/
def addGlobalParam (st : St) (valueType : IRType) : Inst × St :=
  let (g, st) := freshInst st .globalParam valueType []
  (g, { st with globalParams := st.globalParams ++ [g] })

/-- Attach a decoration to an instruction. -/
def addDecoration (st : St) (instId : Nat) (d : Decoration) : St :=
  { st with decorations := st.decorations ++ [(instId, d)] }

/-- requireGLSLExtension on the extension usage tracker. -/
def requireGLSLExtension (st : St) (name : String) : St :=
  { st with extensions := st.extensions ++ [name] }

/-- requireGLSLVersion on the extension usage tracker. -/
def requireGLSLVersion (st : St) (v : ProfileVersion) : St :=
  { st with versions := st.versions ++ [v] }

/-- Emit a diagnostic through the sink. -/
def diagnose (st : St) (loc : Nat) (code : DiagnosticCode) : St :=
  { st with diags := st.diags ++ [Diagnostic.mk loc code] }

/-- Per-entry-point context (sink, session and tracker are carried in
St; the stage is the datum the legalizers read). -/
structure GLSLLegalizationContext where
  stage : Stage
  deriving Repr

/-- emitLoad: the loaded type comes from the pointer type. -/
def emitLoad (st : St) (p : Inst) : Except String (Inst × St) :=
  match ptrValueType p.type with
  | some t => .ok (freshInst st .load t [p])
  | Option.none => .error "load from non-pointer"

/-- emitStore. -/
def emitStore (st : St) (ptr v : Inst) : Inst × St :=
  freshInst st .store .voidT [ptr, v]

/-- getIntValue(getIntType(), n): an int constant instruction (module
level, not part of any block body). -/
def getIntValue (st : St) (n : Nat) : Inst × St :=
  freshInst st (.intConst n) (.basic .intT) []

/-- toLower on a string, embedded as a structural map over the
character list (String.toLower itself is defined by well-founded
recursion over byte positions, which does not reduce inside the
kernel; this computes the same string). -/
def strToLower (s : String) : String := String.mk (s.data.map Char.toLower)

/-- The record filled by the system-value resolver. -/
structure GLSLSystemValueInfo where
  name : String
  outerArrayName : Option String
  requiredType : Option IRType

/-- float4. -/
def float4Type : IRType := .vec (.basic .floatT) 4

/-- float3. -/
def float3Type : IRType := .vec (.basic .floatT) 3

/-- uint3. -/
def uint3Type : IRType := .vec (.basic .uintT) 3

/-- One side effect of the system-value resolver on the extension
usage tracker or the diagnostic sink. -/
inductive TrackerEffect where
  | ext (name : String)
  | ver (v : ProfileVersion)
  | diag (loc : Nat) (code : DiagnosticCode)

/-- Apply one resolver side effect to the pass state. -/
def applyEffect (st : St) : TrackerEffect → St
  | .ext n => requireGLSLExtension st n
  | .ver v => requireGLSLVersion st v
  | .diag l c => diagnose st l c

/-- Apply resolver side effects in order. -/
def applyEffects (st : St) (es : List TrackerEffect) : St :=
  es.foldl applyEffect st

/-- The mapping table of getGLSLSystemValueInfo: semantic string,
resource kind and stage to the GLSL built-in descriptor, plus the side
effects the match performs on the extension tracker and the sink, in
order.  An empty semantic is not a system value (nil, no effect);
sv_target is recognized as needing no built-in (nil, no effect); any
other unrecognized name is diagnosed at the variable's location and
yields nil. -/
def getGLSLSystemValueInfoCore (ctx : GLSLLegalizationContext)
    (varLayout : VarLayout) (kind : LayoutResourceKind) (stage : Stage) :
    List TrackerEffect × Option GLSLSystemValueInfo :=
  let semanticNameSpelling := varLayout.core.systemValueSemantic
  if semanticNameSpelling.length = 0 then ([], Option.none)
  else
    let semanticName := strToLower semanticNameSpelling
    if semanticName = "sv_position" then
      if stage = .fragment ∧ kind = .varyingInput then
        ([], some ⟨"gl_FragCoord", Option.none, some float4Type⟩)
      else if stage = .geometry ∧ kind = .varyingInput then
        ([], some ⟨"gl_Position", some "gl_in", some float4Type⟩)
      else
        ([], some ⟨"gl_Position", Option.none, some float4Type⟩)
    else if semanticName = "sv_target" then
      ([], Option.none)
    else if semanticName = "sv_clipdistance" then
      ([], some ⟨"gl_ClipDistance", Option.none, some (.basic .floatT)⟩)
    else if semanticName = "sv_culldistance" then
      ([.ext "ARB_cull_distance"],
        some ⟨"gl_CullDistance", Option.none, some (.basic .floatT)⟩)
    else if semanticName = "sv_coverage" then
      ([], some ⟨"gl_SampleMask", Option.none, some (.basic .intT)⟩)
    else if semanticName = "sv_depth" then
      ([], some ⟨"gl_FragDepth", Option.none, some (.basic .floatT)⟩)
    else if semanticName = "sv_depthgreaterequal" then
      ([], some ⟨"gl_FragDepth", Option.none, some (.basic .floatT)⟩)
    else if semanticName = "sv_depthlessequal" then
      ([], some ⟨"gl_FragDepth", Option.none, some (.basic .floatT)⟩)
    else if semanticName = "sv_dispatchthreadid" then
      ([], some ⟨"gl_GlobalInvocationID", Option.none, some uint3Type⟩)
    else if semanticName = "sv_domainlocation" then
      ([], some ⟨"gl_TessCoord", Option.none, some float3Type⟩)
    else if semanticName = "sv_groupid" then
      ([], some ⟨"gl_WorkGroupID", Option.none, some uint3Type⟩)
    else if semanticName = "sv_groupindex" then
      ([], some ⟨"gl_LocalInvocationIndex", Option.none, some (.basic .uintT)⟩)
    else if semanticName = "sv_groupthreadid" then
      ([], some ⟨"gl_LocalInvocationID", Option.none, some uint3Type⟩)
    else if semanticName = "sv_gsinstanceid" then
      ([], some ⟨"gl_InvocationID", Option.none, some (.basic .intT)⟩)
    else if semanticName = "sv_instanceid" then
      ([], some ⟨"gl_InstanceIndex", Option.none, some (.basic .intT)⟩)
    else if semanticName = "sv_isfrontface" then
      ([], some ⟨"gl_FrontFacing", Option.none, some (.basic .boolT)⟩)
    else if semanticName = "sv_outputcontrolpointid" then
      ([], some ⟨"gl_InvocationID", Option.none, some (.basic .intT)⟩)
    else if semanticName = "sv_pointsize" then
      ([], some ⟨"gl_PointSize", Option.none, some (.basic .floatT)⟩)
    else if semanticName = "sv_primitiveid" then
      ([], some ⟨"gl_PrimitiveID", Option.none, some (.basic .intT)⟩)
    else if semanticName = "sv_rendertargetarrayindex" then
      let effects : List TrackerEffect :=
        match ctx.stage with
        | .geometry => [.ver .glsl150]
        | .fragment => [.ver .glsl430]
        | _ => [.ver .glsl450, .ext "GL_ARB_shader_viewport_layer_array"]
      (effects, some ⟨"gl_Layer", Option.none, some (.basic .intT)⟩)
    else if semanticName = "sv_sampleindex" then
      ([], some ⟨"gl_SampleID", Option.none, some (.basic .intT)⟩)
    else if semanticName = "sv_stencilref" then
      ([.ext "ARB_shader_stencil_export"],
        some ⟨"gl_FragStencilRef", Option.none, some (.basic .intT)⟩)
    else if semanticName = "sv_tessfactor" then
      ([], some ⟨"gl_TessLevelOuter", Option.none,
        some (.arrayT (.basic .floatT) 4)⟩)
    else if semanticName = "sv_vertexid" then
      ([], some ⟨"gl_VertexIndex", Option.none, some (.basic .intT)⟩)
    else if semanticName = "sv_viewportarrayindex" then
      ([], some ⟨"gl_ViewportIndex", Option.none, some (.basic .intT)⟩)
    else if semanticName = "nv_x_right" then
      ([.ver .glsl450, .ext "GL_NVX_multiview_per_view_attributes"],
        some ⟨"gl_PositionPerViewNV[1]", Option.none, Option.none⟩)
    else if semanticName = "nv_viewport_mask" then
      ([.ver .glsl450, .ext "GL_NVX_multiview_per_view_attributes"],
        some ⟨"gl_ViewportMaskPerViewNV", Option.none, Option.none⟩)
    else
      ([.diag varLayout.core.varDeclLoc .unknownSystemValueSemantic],
        Option.none)

/-- getGLSLSystemValueInfo: resolve the semantic and apply the side
effects to the pass state.  The in-storage out-parameter of the C++
function becomes the returned option. -/
def getGLSLSystemValueInfo (ctx : GLSLLegalizationContext) (st : St)
    (varLayout : VarLayout) (kind : LayoutResourceKind) (stage : Stage) :
    St × Option GLSLSystemValueInfo :=
  let (effects, res) := getGLSLSystemValueInfoCore ctx varLayout kind stage
  (applyEffects st effects, res)

/-- One step of the declarator loop in createSimpleGLSLGlobalVarying:
wrap the leaf type in an array and build the ArrayTypeLayout whose
resource usage scales the resource info of the original leaf type
layout by the element count (the source reads the resource info off
inTypeLayout on every iteration). -/
def wrapDeclarator (inTypeLayout : TypeLayout) (kind : LayoutResourceKind)
    (acc : IRType × TypeLayout) (elementCount : Nat) : IRType × TypeLayout :=
  let arrayType := IRType.arrayT acc.1 elementCount
  let resInfos : List ResInfo :=
    match inTypeLayout.findResourceInfo kind with
    | some resInfo => [⟨kind, 0, resInfo.count * elementCount⟩]
    | Option.none => []
  (arrayType, .arrayTL acc.2.rules resInfos acc.2)

/-- createSimpleGLSLGlobalVarying: create one global shader parameter
for a leaf varying.  The declarator chain is the list of outer array
element counts, innermost first, exactly the order in which the C++
loop walks the linked declarator list. -/
def createSimpleGLSLGlobalVarying (ctx : GLSLLegalizationContext) (st : St)
    (inType : IRType) (inVarLayout : VarLayout) (inTypeLayout : TypeLayout)
    (kind : LayoutResourceKind) (stage : Stage) (bindingIndex : Nat)
    (declarator : List Nat) : St × ScalarizedVal :=
  let (st, systemValueInfo) :=
    getGLSLSystemValueInfo ctx st inVarLayout kind stage
  -- a system value may override the user-declared type
  let type0 :=
    match systemValueInfo with
    | some svi =>
      match svi.requiredType with
      | some rt => rt
      | Option.none => inType
    | Option.none => inType
  -- wrap in the outer arrays recorded by the declarator chain
  let wrapped :=
    declarator.foldl (wrapDeclarator inTypeLayout kind) (type0, inTypeLayout)
  let type := wrapped.1
  let typeLayout := wrapped.2
  -- fresh var layout with a single resource info: kind at bindingIndex
  let varLayout : VarLayout :=
    { core :=
        { varDeclLoc := inVarLayout.core.varDeclLoc
          flags := inVarLayout.core.flags
          systemValueSemantic := inVarLayout.core.systemValueSemantic
          systemValueSemanticIndex := inVarLayout.core.systemValueSemanticIndex
          semanticName := inVarLayout.core.semanticName
          semanticIndex := inVarLayout.core.semanticIndex
          stage := inVarLayout.core.stage
          resInfos := [⟨kind, bindingIndex, 0⟩] }
      typeLayout := typeLayout }
  let isOutput := kind = LayoutResourceKind.varyingOutput
  let paramType := if isOutput then IRType.outT type else type
  let (globalParam, st) := addGlobalParam st paramType
  let val :=
    if isOutput then ScalarizedVal.address globalParam
    else ScalarizedVal.value globalParam
  let (st, val) :=
    match systemValueInfo with
    | some svi =>
      let st := addDecoration st globalParam.id (.importNameDec svi.name)
      let val :=
        match svi.requiredType with
        | some fromType =>
          -- adapt from the declared type to/from the GLSL global's type
          if isTypeEqual fromType inType then val
          else ScalarizedVal.typeAdapter val fromType inType
        | Option.none => val
      let st :=
        match svi.outerArrayName with
        | some outerArrayName =>
          addDecoration st globalParam.id (.glslOuterArrayDec outerArrayName)
        | Option.none => st
      (st, val)
    | Option.none => (st, val)
  let st := addDecoration st globalParam.id (.layoutDec (.varL varLayout))
  (st, val)

mutual

/-- createGLSLGlobalVaryingsImpl: structural recursion on the type.
Void yields the none flavor; basic, vector and matrix types are
leaves; arrays prepend an array declarator and recurse on the element
(SOA); stream-output types recurse on the element; structs recurse
field by field, collecting the non-none results into a tuple whose
logical type carries the outer declarator arrays; anything else falls
back to the simple leaf case.  Failed as-casts of the type layout
(SLANG_ASSERT in the source) become errors. -/
def createGLSLGlobalVaryingsImpl (ctx : GLSLLegalizationContext) (st : St)
    (type : IRType) (varLayout : VarLayout) (typeLayout : TypeLayout)
    (kind : LayoutResourceKind) (stage : Stage) (bindingIndex : Nat)
    (declarator : List Nat) : Except String (St × ScalarizedVal) :=
  match type with
  | .voidT => .ok (st, .none)
  | .basic b =>
    .ok (createSimpleGLSLGlobalVarying ctx st (.basic b) varLayout typeLayout
      kind stage bindingIndex declarator)
  | .vec e n =>
    .ok (createSimpleGLSLGlobalVarying ctx st (.vec e n) varLayout typeLayout
      kind stage bindingIndex declarator)
  | .matrixT e r c =>
    .ok (createSimpleGLSLGlobalVarying ctx st (.matrixT e r c) varLayout
      typeLayout kind stage bindingIndex declarator)
  | .arrayT elementType elementCount =>
    match typeLayout with
    | .arrayTL _ _ elementTypeLayout =>
      createGLSLGlobalVaryingsImpl ctx st elementType varLayout
        elementTypeLayout kind stage bindingIndex (elementCount :: declarator)
    | _ => .error "assert: array type without ArrayTypeLayout"
  | .streamOutT elementType =>
    match typeLayout with
    | .streamTL _ _ elementTypeLayout =>
      createGLSLGlobalVaryingsImpl ctx st elementType varLayout
        elementTypeLayout kind stage bindingIndex declarator
    | _ => .error "assert: stream type without StreamOutputTypeLayout"
  | .structT tag fields =>
    match typeLayout with
    | .structTL _ _ fieldLayouts => do
      let fullType := declarator.foldl (fun t n => IRType.arrayT t n)
        (IRType.structT tag fields)
      let (st, elements) ← createGLSLGlobalVaryingsFields ctx st fields
        fieldLayouts kind stage bindingIndex declarator
      .ok (st, .tuple fullType elements)
    | _ => .error "assert: struct type without StructTypeLayout"
  | t =>
    .ok (createSimpleGLSLGlobalVarying ctx st t varLayout typeLayout kind
      stage bindingIndex declarator)

/-- The field walk of the struct case of createGLSLGlobalVaryingsImpl:
each field's binding index advances by the field's resource index for
the kind, and only non-none field values become tuple elements.
Indexing past the end of the layout's field list (a List bounds
assert in the source) is an error. -/
def createGLSLGlobalVaryingsFields (ctx : GLSLLegalizationContext) (st : St)
    (fields : List (Nat × IRType))
    (fieldLayouts : List (VarLayoutCore × TypeLayout))
    (kind : LayoutResourceKind) (stage : Stage) (bindingIndex : Nat)
    (declarator : List Nat) :
    Except String (St × List (Nat × ScalarizedVal)) :=
  match fields, fieldLayouts with
  | [], _ => .ok (st, [])
  | (key, fieldType) :: restFields, (flCore, flTL) :: restLayouts => do
    let fieldVarLayout : VarLayout := { core := flCore, typeLayout := flTL }
    let fieldBindingIndex := bindingIndex +
      (match findResInfo flCore.resInfos kind with
       | some fieldResInfo => fieldResInfo.index
       | Option.none => 0)
    let (st, fieldVal) ← createGLSLGlobalVaryingsImpl ctx st fieldType
      fieldVarLayout flTL kind stage fieldBindingIndex declarator
    let (st, rest) ← createGLSLGlobalVaryingsFields ctx st restFields
      restLayouts kind stage bindingIndex declarator
    .ok (st, if fieldVal.isNone then rest else (key, fieldVal) :: rest)
  | _ :: _, [] => .error "assert: struct layout with too few fields"

end

/-- createGLSLGlobalVaryings: seed the binding index from the
variable's own resource info and start with an empty declarator
chain. -/
def createGLSLGlobalVaryings (ctx : GLSLLegalizationContext) (st : St)
    (type : IRType) (layout : VarLayout) (kind : LayoutResourceKind)
    (stage : Stage) : Except String (St × ScalarizedVal) :=
  let bindingIndex :=
    match layout.findResourceInfo kind with
    | some rr => rr.index
    | Option.none => 0
  createGLSLGlobalVaryingsImpl ctx st type layout layout.typeLayout kind stage
    bindingIndex []

/-- extractField over a ScalarizedVal.  Emission results are returned
as (state, emitted instruction stream, result value); the value case
emits a field extract, the address case a field address preserving the
pointer opcode, the tuple case selects by index without emitting. -/
def extractField (st : St) (val : ScalarizedVal) (fieldIndex : Nat)
    (fieldKey : Nat) : Except String (St × List Inst × ScalarizedVal) :=
  match val with
  | .value v => do
    let fieldType ← getFieldType v.type fieldKey
    let (i, st) := freshInst st (.fieldExtract fieldKey) fieldType [v]
    .ok (st, [i], .value i)
  | .address a =>
    match a.type with
    | .outT valType => do
      let fieldType ← getFieldType valType fieldKey
      let (i, st) := freshInst st (.fieldAddress fieldKey) (.outT fieldType) [a]
      .ok (st, [i], .address i)
    | .inOutT valType => do
      let fieldType ← getFieldType valType fieldKey
      let (i, st) := freshInst st (.fieldAddress fieldKey) (.inOutT fieldType) [a]
      .ok (st, [i], .address i)
    | .ptrT valType => do
      let fieldType ← getFieldType valType fieldKey
      let (i, st) := freshInst st (.fieldAddress fieldKey) (.ptrT fieldType) [a]
      .ok (st, [i], .address i)
    | _ => .error "field address of non-pointer"
  | .tuple _ elements =>
    match elements.get? fieldIndex with
    | some e => .ok (st, [], e.2)
    | Option.none => .error "tuple index out of range"
  | _ => .error "unimplemented"

/-- adaptType on a raw instruction: a single one-argument constructor
instruction of the target type. -/
def adaptTypeInst (st : St) (val : Inst) (toType _fromType : IRType) :
    St × List Inst × ScalarizedVal :=
  let (i, st) := freshInst st .construct toType [val]
  (st, [i], .value i)

/-- adaptType on a ScalarizedVal: addresses are loaded first; other
flavors are unimplemented. -/
def adaptType (st : St) (val : ScalarizedVal) (toType fromType : IRType) :
    Except String (St × List Inst × ScalarizedVal) :=
  match val with
  | .value v => .ok (adaptTypeInst st v toType fromType)
  | .address a =>
    match emitLoad st a with
    | .error e => .error e
    | .ok (loaded, st) =>
      let (st, is, r) := adaptTypeInst st loaded toType fromType
      .ok (st, loaded :: is, r)
  | _ => .error "unimplemented"

mutual

/-- assign, table-driven on the flavors of both sides.  The fuel
argument only bounds the recursion depth (the C++ recursion is on
heap structures); every combination the source aborts on is an
error. -/
def assign (fuel : Nat) (st : St) (left right : ScalarizedVal) :
    Except String (St × List Inst) :=
  match fuel with
  | 0 => .error "out of fuel"
  | fuel + 1 =>
    match left with
    | .address la =>
      match right with
      | .value rv =>
        let (i, st) := emitStore st la rv
        .ok (st, [i])
      | .address ra =>
        (match emitLoad st ra with
         | .error e => .error e
         | .ok (val, st) =>
           let (i, st) := emitStore st la val
           .ok (st, [val, i]))
      | .tuple _ rightElements =>
        -- assigning a tuple into a non-tuple: element by element
        assignRightElems fuel st (.address la) rightElements 0
      | _ => .error "unimplemented"
    | .tuple _ leftElements =>
      assignLeftElems fuel st right leftElements 0
    | .typeAdapter innerVal actualType pretendType =>
      -- convert the right-hand side from the pretend type to the
      -- actual type of the GLSL variable, then assign to the inner val
      (match adaptType st right actualType pretendType with
       | .error e => .error e
       | .ok (st, is1, adaptedRight) =>
         match assign fuel st innerVal adaptedRight with
         | .error e => .error e
         | .ok (st, is2) => .ok (st, is1 ++ is2))
    | _ => .error "unimplemented"

/-- The right-tuple loop of assign: for each right element, extract
the matching field of the left side by position (carrying the right
element's key) and assign recursively. -/
def assignRightElems (fuel : Nat) (st : St) (left : ScalarizedVal)
    (rightElements : List (Nat × ScalarizedVal)) (ee : Nat) :
    Except String (St × List Inst) :=
  match fuel with
  | 0 => .error "out of fuel"
  | fuel + 1 =>
    match rightElements with
    | [] => .ok (st, [])
    | (key, rv) :: rest => do
      let (st, is1, leftElementVal) ← extractField st left ee key
      let (st, is2) ← assign fuel st leftElementVal rv
      let (st, is3) ← assignRightElems fuel st left rest (ee + 1)
      .ok (st, is1 ++ is2 ++ is3)

/-- The left-tuple loop of assign: for each left element, extract the
matching field of the right side by position (carrying the left
element's key) and assign recursively. -/
def assignLeftElems (fuel : Nat) (st : St) (right : ScalarizedVal)
    (leftElements : List (Nat × ScalarizedVal)) (ee : Nat) :
    Except String (St × List Inst) :=
  match fuel with
  | 0 => .error "out of fuel"
  | fuel + 1 =>
    match leftElements with
    | [] => .ok (st, [])
    | (key, lv) :: rest => do
      let (st, is1, rightElementVal) ← extractField st right ee key
      let (st, is2) ← assign fuel st lv rightElementVal
      let (st, is3) ← assignLeftElems fuel st right rest (ee + 1)
      .ok (st, is1 ++ is2 ++ is3)

end

mutual

/-- getSubscriptVal: index into a scalarized array value.  The tuple
case rebuilds a tuple over the struct fields of the element type,
recursively subscripting each element; the arity asserts of the source
are errors. -/
def getSubscriptVal (fuel : Nat) (st : St) (elementType : IRType)
    (val : ScalarizedVal) (indexVal : Inst) :
    Except String (St × List Inst × ScalarizedVal) :=
  match fuel with
  | 0 => .error "out of fuel"
  | fuel + 1 =>
    match val with
    | .value v =>
      let (i, st) := freshInst st .elementExtract elementType [v, indexVal]
      .ok (st, [i], .value i)
    | .address a =>
      let (i, st) := freshInst st .elementAddress (.ptrT elementType)
        [a, indexVal]
      .ok (st, [i], .address i)
    | .tuple _ elements =>
      match elementType with
      | .structT tag fields => do
        let (st, is, resultElements) ←
          getSubscriptFields fuel st fields elements indexVal
        .ok (st, is, .tuple (.structT tag fields) resultElements)
      | _ => .error "subscript of tuple with non-struct element type"
    | _ => .error "unimplemented"

/-- The field walk of getSubscriptVal's tuple case: pair struct fields
with tuple elements positionally; a length mismatch is the source's
release assert. -/
def getSubscriptFields (fuel : Nat) (st : St) (fields : List (Nat × IRType))
    (elements : List (Nat × ScalarizedVal)) (indexVal : Inst) :
    Except String (St × List Inst × List (Nat × ScalarizedVal)) :=
  match fuel with
  | 0 => .error "out of fuel"
  | fuel + 1 =>
    match fields, elements with
    | [], [] => .ok (st, [], [])
    | [], _ :: _ => .error "assert: tuple arity exceeds struct arity"
    | _ :: _, [] => .error "assert: struct arity exceeds tuple arity"
    | (_, fieldType) :: restFields, (ekey, ev) :: restElements => do
      let (st, is1, sub) ← getSubscriptVal fuel st fieldType ev indexVal
      let (st, is2, rest) ←
        getSubscriptFields fuel st restFields restElements indexVal
      .ok (st, is1 ++ is2, (ekey, sub) :: rest)

/-- The UInt overload of getSubscriptVal: build the index constant
with getIntValue. -/
def getSubscriptValNat (fuel : Nat) (st : St) (elementType : IRType)
    (val : ScalarizedVal) (index : Nat) :
    Except String (St × List Inst × ScalarizedVal) :=
  match fuel with
  | 0 => .error "out of fuel"
  | fuel + 1 =>
    let (indexVal, st) := getIntValue st index
    getSubscriptVal fuel st elementType val indexVal

/-- materializeTupleValue: a tuple whose logical type is an array is
materialized element-wise through getSubscriptVal and reassembled with
makeArray; any other tuple materializes its elements and applies a
constructor of the tuple's type. -/
def materializeTupleValue (fuel : Nat) (st : St) (val : ScalarizedVal) :
    Except String (St × List Inst × Inst) :=
  match fuel with
  | 0 => .error "out of fuel"
  | fuel + 1 =>
    match val with
    | .tuple type elements =>
      match type with
      | .arrayT elementType arrayElementCount => do
        let (st, is, arrayElementVals) ← materializeArrayElems fuel st
          (.tuple (.arrayT elementType arrayElementCount) elements)
          elementType (List.range arrayElementCount)
        let (arr, st) := freshInst st .makeArray
          (.arrayT elementType arrayElementCount) arrayElementVals
        .ok (st, is ++ [arr], arr)
      | _ => do
        let (st, is, elementVals) ← materializeElems fuel st elements
        let (c, st) := freshInst st .construct type elementVals
        .ok (st, is ++ [c], c)
    | _ => .error "assert: materializeTupleValue on non-tuple"

/-- The per-index loop of the array case of materializeTupleValue. -/
def materializeArrayElems (fuel : Nat) (st : St) (val : ScalarizedVal)
    (elementType : IRType) (indices : List Nat) :
    Except String (St × List Inst × List Inst) :=
  match fuel with
  | 0 => .error "out of fuel"
  | fuel + 1 =>
    match indices with
    | [] => .ok (st, [], [])
    | ii :: rest => do
      let (st, is1, pseudoVal) ← getSubscriptValNat fuel st elementType val ii
      let (st, is2, v) ← materializeValue fuel st pseudoVal
      let (st, is3, vs) ← materializeArrayElems fuel st val elementType rest
      .ok (st, is1 ++ is2 ++ is3, v :: vs)

/-- The per-element loop of the aggregate case of
materializeTupleValue. -/
def materializeElems (fuel : Nat) (st : St)
    (elements : List (Nat × ScalarizedVal)) :
    Except String (St × List Inst × List Inst) :=
  match fuel with
  | 0 => .error "out of fuel"
  | fuel + 1 =>
    match elements with
    | [] => .ok (st, [], [])
    | (_, ev) :: rest => do
      let (st, is1, v) ← materializeValue fuel st ev
      let (st, is2, vs) ← materializeElems fuel st rest
      .ok (st, is1 ++ is2, v :: vs)

/-- materializeValue: produce a single r-value instruction for a
ScalarizedVal.  The none flavor reaches the fatal unimplemented branch
of the source. -/
def materializeValue (fuel : Nat) (st : St) (val : ScalarizedVal) :
    Except String (St × List Inst × Inst) :=
  match fuel with
  | 0 => .error "out of fuel"
  | fuel + 1 =>
    match val with
    | .value v => .ok (st, [], v)
    | .address a =>
      (match emitLoad st a with
       | .error e => .error e
       | .ok (loadInst, st) => .ok (st, [loadInst], loadInst))
    | .tuple type elements =>
      materializeTupleValue fuel st (.tuple type elements)
    | .typeAdapter innerVal actualType pretendType =>
      -- adapt from the actual type over to the pretend type, then
      -- materialize the adapted value
      (match adaptType st innerVal pretendType actualType with
       | .error e => .error e
       | .ok (st, is1, adapted) =>
         match materializeValue fuel st adapted with
         | .error e => .error e
         | .ok (st, is2, v) => .ok (st, is1 ++ is2, v))
    | .none => .error "unimplemented"

end

/-- A basic block: the block's parameters (with their decorations) and
its ordinary instructions in order. -/
structure Block where
  params : List (Inst × List Decoration)
  insts : List Inst

/-- An IR function: its full type, its decorations, whether anything
in the module uses it, and its blocks. -/
structure IRFunc where
  fullType : IRType
  decorations : List Decoration
  hasUses : Bool
  blocks : List Block

/-- getResultType: the result type of the function's IRFuncType (entry
points always carry a function type). -/
def IRFunc.resultType (f : IRFunc) : IRType :=
  match f.fullType with
  | .funcT _ r => r
  | _ => .voidT

/-- getParamCount: the number of parameters of the first block. -/
def IRFunc.paramCount (f : IRFunc) : Nat :=
  match f.blocks with
  | [] => 0
  | b :: _ => b.params.length

/-- as-cast IRVoidType. -/
def isVoidType : IRType → Bool
  | .voidT => true
  | _ => false

/-- as-cast IRInOutType. -/
def isInOutType : IRType → Bool
  | .inOutT _ => true
  | _ => false

/-- The stages that take the ray-tracing legalization path. -/
def isRayTracingStage : Stage → Bool
  | .anyHit | .callable | .closestHit | .intersection | .miss
  | .rayGeneration => true
  | _ => false

/-- Replace uses of the instruction with the given id inside one
instruction's operand list (replaceUsesWith rewires use edges; operand
snapshots one level deep model those edges). -/
def replaceOperand (oldId : Nat) (newInst : Inst) (i : Inst) : Inst :=
  match i with
  | .mk id op ty operands =>
    .mk id op ty (operands.map fun o => if o.id = oldId then newInst else o)

/-- replaceUsesWith over a whole function body. -/
def replaceUsesWith (f : IRFunc) (oldId : Nat) (newInst : Inst) : IRFunc :=
  { f with blocks := f.blocks.map fun b =>
      { b with insts := b.insts.map (replaceOperand oldId newInst) } }

/-- An IRBuilder insertion point: a block index and the instruction
index the next emitted instruction is inserted before. -/
structure Builder where
  blockIdx : Nat
  instIdx : Nat

/-- Insert instructions into a list at an index. -/
def insertIntoList (l : List Inst) (i : Nat) (newInsts : List Inst) :
    List Inst :=
  l.take i ++ newInsts ++ l.drop i

/-- Emit a run of instructions at a builder's insertion point; the
point stays before the same successor instruction. -/
def builderInsert (f : IRFunc) (b : Builder) (newInsts : List Inst) :
    IRFunc × Builder :=
  let blocks := f.blocks.mapIdx fun j blk =>
    if j = b.blockIdx then
      { blk with insts := insertIntoList blk.insts b.instIdx newInsts }
    else blk
  ({ f with blocks := blocks },
   { b with instIdx := b.instIdx + newInsts.length })

/-- legalizeRayTracingEntryPointParameterForGLSL: lift the parameter
verbatim to a global parameter of the same type, redirect uses, and
record the depends-on decoration on the function. -/
def legalizeRayTracingEntryPointParameterForGLSL
    (st : St) (f : IRFunc) (pp : Inst) (paramLayout : VarLayout) :
    St × IRFunc :=
  let paramType := pp.type
  let (globalParam, st) := addGlobalParam st paramType
  let st := addDecoration st globalParam.id (.layoutDec (.varL paramLayout))
  let f := replaceUsesWith f pp.id globalParam
  let f :=
    { f with decorations := f.decorations ++ [.dependsOnDec globalParam.id] }
  (st, f)

/-- The callee unwrapping loop: look through specialize wrappers and
through generics at their returned value. -/
def resolveCallee : CalleeExpr → CalleeExpr
  | .specialize inner => resolveCallee inner
  | .generic (some r) => resolveCallee r
  | c => c

/-- Does this instruction call the glsl EmitVertex() target
intrinsic? -/
def isEmitVertexCall (i : Inst) : Bool :=
  match i.op with
  | .call callee =>
    match resolveCallee callee with
    | .funcRef decorations =>
      match findTargetIntrinsicDecoration decorations "glsl" with
      | some (_, defn) => defn = "EmitVertex()"
      | Option.none => false
    | _ => false
  | _ => false

/-- The EmitVertex scan over one block of the geometry-stream case:
before each matching call, assign the call's operand 2 into the
scalarized output varying. -/
def legalizeStreamBlockInsts (fuel : Nat) (st : St)
    (globalOutputVal : ScalarizedVal) :
    List Inst → Except String (St × List Inst)
  | [] => .ok (st, [])
  | ii :: rest =>
    if isEmitVertexCall ii then
      match ii.getOperand 2 with
      | some arg => do
        let (st, emitted) ← assign fuel st globalOutputVal (.value arg)
        let (st, rest') ← legalizeStreamBlockInsts fuel st globalOutputVal rest
        .ok (st, emitted ++ ii :: rest')
      | Option.none => .error "call operand out of range"
    else do
      let (st, rest') ← legalizeStreamBlockInsts fuel st globalOutputVal rest
      .ok (st, ii :: rest')

/-- The EmitVertex scan over all blocks. -/
def legalizeStreamBlocks (fuel : Nat) (st : St)
    (globalOutputVal : ScalarizedVal) :
    List Block → Except String (St × List Block)
  | [] => .ok (st, [])
  | b :: bs => do
    let (st, insts') ← legalizeStreamBlockInsts fuel st globalOutputVal b.insts
    let (st, bs') := ← legalizeStreamBlocks fuel st globalOutputVal bs
    .ok (st, { b with insts := insts' } :: bs')

/-- The geometry-stream output case of parameter legalization:
materialize an output varying for the stream's element type, rewrite
every EmitVertex call site, then replace the remaining uses of the
parameter with an undefined value emitted before the first ordinary
instruction (where the main builder is repositioned). -/
def legalizeStreamOutParam (fuel : Nat) (ctx : GLSLLegalizationContext)
    (st : St) (f : IRFunc) (pp : Inst) (paramLayout : VarLayout)
    (valueType : IRType) : Except String (St × IRFunc × Builder) := do
  let (st, globalOutputVal) ← createGLSLGlobalVaryings ctx st valueType
    paramLayout .varyingOutput ctx.stage
  let (st, blocks) ← legalizeStreamBlocks fuel st globalOutputVal f.blocks
  let f := { f with blocks := blocks }
  let (undefinedVal, st) := freshInst st .undefined pp.type []
  let builder : Builder := ⟨0, 0⟩
  let (f, builder) := builderInsert f builder [undefinedVal]
  let f := replaceUsesWith f pp.id undefinedVal
  .ok (st, f, builder)

/-- Is this opcode kIROp_ReturnVal? -/
def isReturnValOp : IROp → Bool
  | .returnVal => true
  | _ => false

/-- Is this opcode one of the return terminators? -/
def isReturnOp : IROp → Bool
  | .returnVal => true
  | .returnVoid => true
  | _ => false

/-- The return-terminator scan of the out and inout case: in every
block ending in returnVal or returnVoid, assign the local variable
into the output varying immediately before the terminator, each time
through a fresh builder so the main builder's insertion point is left
alone. -/
def legalizeOutReturns (fuel : Nat) (st : St)
    (globalOutputVal localVal : ScalarizedVal) :
    List Block → Except String (St × List Block)
  | [] => .ok (st, [])
  | b :: bs =>
    match b.insts.getLast? with
    | Option.none => do
      let (st, bs') ← legalizeOutReturns fuel st globalOutputVal localVal bs
      .ok (st, b :: bs')
    | some terminatorInst =>
      if isReturnOp terminatorInst.op then do
        let (st, emitted) ← assign fuel st globalOutputVal localVal
        let insts' := b.insts.dropLast ++ emitted ++ [terminatorInst]
        let (st, bs') ← legalizeOutReturns fuel st globalOutputVal localVal bs
        .ok (st, { b with insts := insts' } :: bs')
      else do
        let (st, bs') ← legalizeOutReturns fuel st globalOutputVal localVal bs
        .ok (st, b :: bs')

/-- The out and inout case of parameter legalization: allocate a local
variable of the pointee type at the main insertion point, assign the
input varying into it for inout, redirect the parameter's uses to the
local, then store the local back to the output varying before every
return. -/
def legalizeOutInOutParam (fuel : Nat) (ctx : GLSLLegalizationContext)
    (st : St) (f : IRFunc) (builder : Builder) (pp : Inst)
    (paramLayout : VarLayout) (valueType : IRType) :
    Except String (St × IRFunc × Builder) := do
  let (localVariable, st) := freshInst st .varOp (.ptrT valueType) []
  let (f, builder) := builderInsert f builder [localVariable]
  let localVal := ScalarizedVal.address localVariable
  let (st, f, builder) ←
    if isInOutType pp.type then do
      let (st, globalInputVal) ← createGLSLGlobalVaryings ctx st valueType
        paramLayout .varyingInput ctx.stage
      let (st, emitted) ← assign fuel st localVal globalInputVal
      let (f, builder) := builderInsert f builder emitted
      Except.ok (st, f, builder)
    else Except.ok (st, f, builder)
  let f := replaceUsesWith f pp.id localVariable
  let (st, globalOutputVal) ← createGLSLGlobalVaryings ctx st valueType
    paramLayout .varyingOutput ctx.stage
  let (st, blocks) ← legalizeOutReturns fuel st globalOutputVal localVal
    f.blocks
  .ok (st, { f with blocks := blocks }, builder)

/-- The ordinary input case of parameter legalization: materialize the
varying into one r-value at the main insertion point and redirect the
parameter's uses to it. -/
def legalizeOrdinaryInParam (fuel : Nat) (ctx : GLSLLegalizationContext)
    (st : St) (f : IRFunc) (builder : Builder) (pp : Inst)
    (paramLayout : VarLayout) : Except String (St × IRFunc × Builder) := do
  let (st, globalValue) ← createGLSLGlobalVaryings ctx st pp.type paramLayout
    .varyingInput ctx.stage
  let (st, emitted, materialized) ← materializeValue fuel st globalValue
  let (f, builder) := builderInsert f builder emitted
  let f := replaceUsesWith f pp.id materialized
  .ok (st, f, builder)

/-- legalizeEntryPointParameterForGLSL: dispatch on the parameter's
calling-convention category, in the source's order: geometry-stream
outputs first, then the ray-tracing stages, then out or inout
pointers, and ordinary inputs last. -/
def legalizeEntryPointParameterForGLSL (fuel : Nat)
    (ctx : GLSLLegalizationContext) (st : St) (f : IRFunc)
    (builder : Builder) (pp : Inst) (paramLayout : VarLayout) :
    Except String (St × IRFunc × Builder) :=
  let paramType := pp.type
  match outTypeBaseValue paramType with
  | some valueType =>
    match streamOutputElem valueType with
    | some _ =>
      legalizeStreamOutParam fuel ctx st f pp paramLayout valueType
    | Option.none =>
      if isRayTracingStage ctx.stage then
        let (st, f) :=
          legalizeRayTracingEntryPointParameterForGLSL st f pp paramLayout
        .ok (st, f, builder)
      else
        legalizeOutInOutParam fuel ctx st f builder pp paramLayout valueType
  | Option.none =>
    if isRayTracingStage ctx.stage then
      let (st, f) :=
        legalizeRayTracingEntryPointParameterForGLSL st f pp paramLayout
      .ok (st, f, builder)
    else
      legalizeOrdinaryInParam fuel ctx st f builder pp paramLayout

/-- The returnVal scan of one block: on the first returnVal found the
builder's insertion moves into the block (its end), the returned value
is assigned into the result global, a returnVoid is emitted, the old
returnVal is removed, and iteration resumes at the new return, ending
the scan of the block. -/
def rewriteReturnInsts (fuel : Nat) (st : St)
    (resultGlobal : ScalarizedVal) :
    List Inst → Except String (St × List Inst)
  | [] => .ok (st, [])
  | ii :: rest =>
    if isReturnValOp ii.op then
      (match ii.operands with
       | returnValue :: _ => do
         let (st, emitted) ← assign fuel st resultGlobal (.value returnValue)
         let (returnVoidInst, st) := freshInst st .returnVoid .voidT []
         .ok (st, rest ++ emitted ++ [returnVoidInst])
       | [] => .error "returnVal without operand")
    else do
      let (st, rest') ← rewriteReturnInsts fuel st resultGlobal rest
      .ok (st, ii :: rest')

/-- The returnVal scan over all blocks. -/
def rewriteReturnBlocks (fuel : Nat) (st : St)
    (resultGlobal : ScalarizedVal) :
    List Block → Except String (St × List Block)
  | [] => .ok (st, [])
  | b :: bs => do
    let (st, insts') ← rewriteReturnInsts fuel st resultGlobal b.insts
    let (st, bs') ← rewriteReturnBlocks fuel st resultGlobal bs
    .ok (st, { b with insts := insts' } :: bs')

/-- The parameter loop of the entry-point rewriter: fetch each
parameter's var layout from its layout decoration and legalize it. -/
def paramsLoop (fuel : Nat) (ctx : GLSLLegalizationContext) (st : St)
    (f : IRFunc) (builder : Builder) :
    List (Inst × List Decoration) → Except String (St × IRFunc × Builder)
  | [] => .ok (st, f, builder)
  | (pp, ppDecorations) :: rest =>
    match findLayoutDecoration ppDecorations with
    | some (.varL paramLayout) => do
      let (st, f, builder) ← legalizeEntryPointParameterForGLSL fuel ctx st f
        builder pp paramLayout
      paramsLoop fuel ctx st f builder rest
    | some (.entryPointL _) =>
      .error "assert: parameter layout is not a VarLayout"
    | Option.none => .error "assert: parameter without layout decoration"

/-- Destroy the parameters of the entry block. -/
def clearFirstBlockParams (f : IRFunc) : IRFunc :=
  match f.blocks with
  | [] => f
  | b :: bs => { f with blocks := { b with params := [] } :: bs }

/-- The parameter phase of the entry-point rewriter followed by the
final type patch: legalize every parameter of the entry block with the
main builder placed before the first ordinary instruction, delete the
parameters in order, and set the function's type to the nullary void
function type. -/
def legalizeEntryPointParams (fuel : Nat) (ctx : GLSLLegalizationContext)
    (st : St) (f : IRFunc) : Except String (St × IRFunc) := do
  let (st, f) ←
    match f.blocks with
    | [] => Except.ok (st, f)
    | firstBlock :: _ => do
      let builder : Builder := ⟨0, 0⟩
      let (st, f, _) ← paramsLoop fuel ctx st f builder firstBlock.params
      Except.ok (st, clearFirstBlockParams f)
  .ok (st, { f with fullType := .funcT [] .voidT })

/-- legalizeEntryPointForGLSL: the exposed entry point of the pass. -/
def legalizeEntryPointForGLSL (fuel : Nat) (st : St) (f : IRFunc) :
    Except String (St × IRFunc) :=
  match findLayoutDecoration f.decorations with
  | Option.none => .error "assert: missing layout decoration"
  | some (.varL _) => .error "assert: function layout is not an EntryPointLayout"
  | some (.entryPointL entryPointLayout) =>
    let stage := entryPointLayout.stage
    let ctx : GLSLLegalizationContext := { stage := stage }
    if f.hasUses then .error "assert: entry-point function has uses"
    else
      let resultType := f.resultType
      if isVoidType resultType then
        -- no work on the return value; with no parameters either,
        -- the function is already legal and the pass bails out
        if f.paramCount = 0 then .ok (st, f)
        else legalizeEntryPointParams fuel ctx st f
      else
        match createGLSLGlobalVaryings ctx st resultType
          entryPointLayout.resultLayout .varyingOutput stage with
        | .error e => .error e
        | .ok (st, resultGlobal) =>
          match rewriteReturnBlocks fuel st resultGlobal f.blocks with
          | .error e => .error e
          | .ok (st, blocks) =>
            legalizeEntryPointParams fuel ctx st { f with blocks := blocks }

/-- The semantic names the resolver's if-chain recognizes (the domain
of its mapping table, sv_target included). -/
def recognizedSemanticNames : List String :=
  ["sv_position", "sv_target", "sv_clipdistance", "sv_culldistance",
   "sv_coverage", "sv_depth", "sv_depthgreaterequal", "sv_depthlessequal",
   "sv_dispatchthreadid", "sv_domainlocation", "sv_groupid", "sv_groupindex",
   "sv_groupthreadid", "sv_gsinstanceid", "sv_instanceid", "sv_isfrontface",
   "sv_outputcontrolpointid", "sv_pointsize", "sv_primitiveid",
   "sv_rendertargetarrayindex", "sv_sampleindex", "sv_stencilref",
   "sv_tessfactor", "sv_vertexid", "sv_viewportarrayindex", "nv_x_right",
   "nv_viewport_mask"]

/-- An empty pass state, for witnesses. -/
def witnessSt : St := ⟨0, [], [], [], [], []⟩

/-- A leaf var-layout core with a given system-value semantic, for
witnesses. -/
def witnessCore (sem : String) : VarLayoutCore :=
  { varDeclLoc := 7, flags := 0, systemValueSemantic := sem
    systemValueSemanticIndex := 0, semanticName := "P", semanticIndex := 0
    stage := 0
    resInfos := [⟨.varyingInput, 0, 1⟩, ⟨.varyingOutput, 0, 1⟩] }

/-- A leaf var layout with a given system-value semantic, for
witnesses. -/
def witnessLeafVL (sem : String) : VarLayout :=
  { core := witnessCore sem
    typeLayout := .basicTL 0 [⟨.varyingInput, 0, 1⟩, ⟨.varyingOutput, 0, 1⟩] }

/-- No instruction in the list is a returnVal. -/
def noRetInst (l : List Inst) : Prop := ∀ i ∈ l, i.op ≠ IROp.returnVal

/-- Well-formed block bodies: a returnVal can only be the last
instruction. -/
def TermOnly (l : List Inst) : Prop :=
  ∀ l1 (i : Inst) l2, l = l1 ++ i :: l2 → i.op = IROp.returnVal → l2 = []

/-- One block body maintained by a rewrite: no returnVal is
introduced into a clean body, and no opcode occurrence is lost. -/
def InstsMaintained (l l' : List Inst) : Prop :=
  (noRetInst l → noRetInst l') ∧
  ∀ o : IROp, (∃ i ∈ l, i.op = o) → ∃ i' ∈ l', i'.op = o

/-- Blocks maintained pointwise by a function-body rewrite. -/
def BlocksMaintained (bs bs' : List Block) : Prop :=
  bs'.length = bs.length ∧
  ∀ j (hj : j < bs.length) (hj' : j < bs'.length),
    InstsMaintained (bs.get ⟨j, hj⟩).insts (bs'.get ⟨j, hj'⟩).insts

/-- Success discriminator for Except, used by witnesses. -/
def exceptIsOk {α : Type} : Except String α → Bool
  | .ok _ => true
  | .error _ => false

/-- A one-block function fixture whose body is a single returnVoid. -/
def witnessFunc (paramType : IRType) (ppId : Nat) : IRFunc :=
  { fullType := .funcT [paramType] .voidT
    decorations := [.layoutDec (.entryPointL ⟨.vertex, witnessLeafVL ""⟩)]
    hasUses := false
    blocks := [⟨[(.mk ppId (.other 0) paramType [],
                  [.layoutDec (.varL (witnessLeafVL ""))])],
                [.mk (ppId + 1) .returnVoid .voidT []]⟩] }

/-- A trivial, already-legal entry point: void result, no
parameters. -/
def witnessTrivialFunc : IRFunc :=
  { fullType := .funcT [] .voidT
    decorations := [.layoutDec (.entryPointL ⟨.vertex, witnessLeafVL ""⟩)]
    hasUses := false
    blocks := [⟨[], [.mk 0 .returnVoid .voidT []]⟩] }

/-- A concrete global parameter instruction, for witnesses. -/
def witnessGlobal : Inst := .mk 0 .globalParam (.outT (.basic .intT)) []

/-- A concrete user-value instruction, for witnesses. -/
def witnessX : Inst := .mk 5 (.other 0) (.basic .uintT) []

/-- An entry point with a float result returned by a single returnVal
terminator. -/
def witnessRetFunc : IRFunc :=
  { fullType := .funcT [] (.basic .floatT)
    decorations := [.layoutDec (.entryPointL ⟨.vertex, witnessLeafVL ""⟩)]
    hasUses := false
    blocks := [⟨[], [.mk 100 .returnVal .voidT
      [.mk 99 .undefined (.basic .floatT) []]]⟩] }

/-- A geometry-stream output parameter fixture. -/
def witnessStreamParam : Inst :=
  .mk 100 (.other 0) (.outT (.streamOutT (.basic .floatT))) []

/-- The stream parameter's layout: a stream wrapper around a leaf. -/
def witnessStreamVL : VarLayout :=
  { core := witnessCore ""
    typeLayout := .streamTL 0 []
      (.basicTL 0 [⟨.varyingInput, 0, 1⟩, ⟨.varyingOutput, 0, 1⟩]) }

/-- An EmitVertex call whose operand 1 uses the stream parameter and
whose operand 2 carries the emitted value. -/
def witnessEmitVertexCall : Inst :=
  .mk 101 (.call (.funcRef [.targetIntrinsicDec "glsl" "EmitVertex()"]))
    .voidT
    [.mk 98 .undefined .voidT [], witnessStreamParam,
     .mk 99 .undefined (.basic .floatT) []]

/-- A one-block geometry entry point with one EmitVertex call. -/
def witnessStreamFunc : IRFunc :=
  { fullType := .funcT [.outT (.streamOutT (.basic .floatT))] .voidT
    decorations := [.layoutDec (.entryPointL ⟨.geometry, witnessLeafVL ""⟩)]
    hasUses := false
    blocks := [⟨[(witnessStreamParam,
                  [.layoutDec (.varL witnessStreamVL)])],
                [witnessEmitVertexCall, .mk 102 .returnVoid .voidT []]⟩] }

/-- An inout float parameter fixture. -/
def witnessInOutParam : Inst :=
  .mk 100 (.other 0) (.inOutT (.basic .floatT)) []

/-- A fragment entry point with one inout parameter, one use of it and
a returnVoid terminator. -/
def witnessInOutFunc : IRFunc :=
  { fullType := .funcT [.inOutT (.basic .floatT)] .voidT
    decorations := [.layoutDec (.entryPointL ⟨.fragment, witnessLeafVL ""⟩)]
    hasUses := false
    blocks := [⟨[(witnessInOutParam,
                  [.layoutDec (.varL (witnessLeafVL ""))])],
                [.mk 101 (.other 1) (.basic .floatT) [witnessInOutParam],
                 .mk 102 .returnVoid .voidT []]⟩] }

/-!
## Theorems

Helper equations for the Except monad, fixture inputs used by
witnesses and counterexamples, and then one theorem per specification
claim.
-/

/-- Bind on a success, stated so simp can unfold do-blocks. -/
@[simp] theorem exceptBind_ok {α β : Type} (v : α)
    (f : α → Except String β) : (Except.ok v >>= f) = f v := rfl

/-- Bind on an error. -/
@[simp] theorem exceptBind_err {α β : Type} (m : String)
    (f : α → Except String β) :
    ((Except.error m : Except String α) >>= f) = .error m := rfl

/-- Pure is ok. -/
@[simp] theorem exceptPure {α : Type} (v : α) :
    (pure v : Except String α) = .ok v := rfl

/-- The empty emission has no returnVal. -/
theorem noRetInst_nil : noRetInst [] := by simp [noRetInst]

/-- Concatenation preserves having no returnVal. -/
theorem noRetInst_append {l1 l2 : List Inst} (h1 : noRetInst l1)
    (h2 : noRetInst l2) : noRetInst (l1 ++ l2) := by
  intro i hi
  rcases List.mem_append.mp hi with h | h
  exacts [h1 i h, h2 i h]

/-- emitLoad produces a load instruction. -/
theorem emitLoad_op {st : St} {p i : Inst} {st2 : St}
    (h : emitLoad st p = .ok (i, st2)) : i.op = IROp.load := by
  unfold emitLoad at h
  cases hp : ptrValueType p.type with
  | none => rw [hp] at h; exact absurd h (by simp)
  | some t =>
    rw [hp] at h
    simp only [freshInst, Except.ok.injEq, Prod.mk.injEq] at h
    obtain ⟨hi, -⟩ := h
    rw [← hi]
    rfl

/-- extractField emits no returnVal. -/
theorem extractField_noret {st : St} {v : ScalarizedVal} {idx key : Nat}
    {st2 : St} {is : List Inst} {r : ScalarizedVal}
    (h : extractField st v idx key = .ok (st2, is, r)) : noRetInst is := by
  cases v with
  | none => simp [extractField] at h
  | typeAdapter a b c => simp [extractField] at h
  | value i =>
    cases hft : getFieldType i.type key with
    | error e => simp [extractField, hft] at h
    | ok ft =>
      simp only [extractField, hft, exceptBind_ok, freshInst,
        Except.ok.injEq, Prod.mk.injEq] at h
      obtain ⟨-, his, -⟩ := h
      rw [← his]
      simp [noRetInst, Inst.op]
  | address a =>
    cases hat : a.type with
    | outT vt =>
      cases hft : getFieldType vt key with
      | error e => simp [extractField, hat, hft] at h
      | ok ft =>
        simp only [extractField, hat, hft, exceptBind_ok, freshInst,
          Except.ok.injEq, Prod.mk.injEq] at h
        obtain ⟨-, his, -⟩ := h
        rw [← his]
        simp [noRetInst, Inst.op]
    | inOutT vt =>
      cases hft : getFieldType vt key with
      | error e => simp [extractField, hat, hft] at h
      | ok ft =>
        simp only [extractField, hat, hft, exceptBind_ok, freshInst,
          Except.ok.injEq, Prod.mk.injEq] at h
        obtain ⟨-, his, -⟩ := h
        rw [← his]
        simp [noRetInst, Inst.op]
    | ptrT vt =>
      cases hft : getFieldType vt key with
      | error e => simp [extractField, hat, hft] at h
      | ok ft =>
        simp only [extractField, hat, hft, exceptBind_ok, freshInst,
          Except.ok.injEq, Prod.mk.injEq] at h
        obtain ⟨-, his, -⟩ := h
        rw [← his]
        simp [noRetInst, Inst.op]
    | voidT => simp [extractField, hat] at h
    | basic b => simp [extractField, hat] at h
    | vec e n => simp [extractField, hat] at h
    | matrixT e rr c => simp [extractField, hat] at h
    | arrayT e n => simp [extractField, hat] at h
    | streamOutT e => simp [extractField, hat] at h
    | structT t fs => simp [extractField, hat] at h
    | funcT p rr => simp [extractField, hat] at h
  | tuple t els =>
    simp only [extractField] at h
    cases hel : els.get? idx with
    | none => rw [hel] at h; exact absurd h (by simp)
    | some e =>
      rw [hel] at h
      simp only [Except.ok.injEq, Prod.mk.injEq] at h
      obtain ⟨-, his, -⟩ := h
      rw [← his]
      exact noRetInst_nil

/-- adaptType emits no returnVal (a load and/or a constructor). -/
theorem adaptType_noret {st : St} {v : ScalarizedVal} {toT fromT : IRType}
    {st2 : St} {is : List Inst} {r : ScalarizedVal}
    (h : adaptType st v toT fromT = .ok (st2, is, r)) : noRetInst is := by
  cases v with
  | none => simp [adaptType] at h
  | tuple t els => simp [adaptType] at h
  | typeAdapter a b c => simp [adaptType] at h
  | value i =>
    simp only [adaptType, adaptTypeInst, freshInst, Except.ok.injEq,
      Prod.mk.injEq] at h
    obtain ⟨-, his, -⟩ := h
    rw [← his]
    simp [noRetInst, Inst.op]
  | address a =>
    simp only [adaptType] at h
    cases hl : emitLoad st a with
    | error e => rw [hl] at h; exact absurd h (by simp)
    | ok p =>
      obtain ⟨loaded, stL⟩ := p
      rw [hl] at h
      simp only [adaptTypeInst, freshInst, Except.ok.injEq,
        Prod.mk.injEq] at h
      obtain ⟨-, his, -⟩ := h
      rw [← his]
      have hload := emitLoad_op hl
      intro i hi
      simp only [List.mem_cons, List.not_mem_nil, or_false] at hi
      rcases hi with rfl | rfl
      · rw [hload]; simp
      · simp [Inst.op]

/-- assign and its two element loops emit no returnVal, jointly by
induction on the fuel. -/
theorem assign_noret_all (fuel : Nat) :
    (∀ st l r st2 is, assign fuel st l r = Except.ok (st2, is) →
      noRetInst is) ∧
    (∀ st l els ee st2 is,
      assignRightElems fuel st l els ee = Except.ok (st2, is) →
      noRetInst is) ∧
    (∀ st r els ee st2 is,
      assignLeftElems fuel st r els ee = Except.ok (st2, is) →
      noRetInst is) := by
  induction fuel with
  | zero =>
    refine ⟨?_, ?_, ?_⟩
    · intro st l r st2 is h; simp [assign] at h
    · intro st l els ee st2 is h; simp [assignRightElems] at h
    · intro st r els ee st2 is h; simp [assignLeftElems] at h
  | succ n ih =>
    obtain ⟨ihA, ihR, ihL⟩ := ih
    refine ⟨?_, ?_, ?_⟩
    · intro st l r st2 is h
      cases l with
      | value v => simp [assign] at h
      | none => simp [assign] at h
      | address la =>
        cases r with
        | none => simp [assign] at h
        | typeAdapter a b c => simp [assign] at h
        | value rv =>
          simp only [assign, emitStore, freshInst, Except.ok.injEq,
            Prod.mk.injEq] at h
          obtain ⟨-, his⟩ := h
          rw [← his]
          simp [noRetInst, Inst.op]
        | address ra =>
          simp only [assign] at h
          cases hl : emitLoad st ra with
          | error e => rw [hl] at h; exact absurd h (by simp)
          | ok p =>
            obtain ⟨val, stL⟩ := p
            rw [hl] at h
            simp only [emitStore, freshInst, Except.ok.injEq,
              Prod.mk.injEq] at h
            obtain ⟨-, his⟩ := h
            rw [← his]
            have hload := emitLoad_op hl
            intro i hi
            simp only [List.mem_cons, List.not_mem_nil, or_false] at hi
            rcases hi with rfl | rfl
            · rw [hload]; simp
            · simp [Inst.op]
        | tuple t els =>
          simp only [assign] at h
          exact ihR _ _ _ _ _ _ h
      | tuple t els =>
        simp only [assign] at h
        exact ihL _ _ _ _ _ _ h
      | typeAdapter inner act pret =>
        simp only [assign] at h
        cases hadapt : adaptType st r act pret with
        | error e => rw [hadapt] at h; exact absurd h (by simp)
        | ok p =>
          obtain ⟨stA, is1, adapted⟩ := p
          simp only [hadapt] at h
          cases hasn : assign n stA inner adapted with
          | error e => rw [hasn] at h; exact absurd h (by simp)
          | ok p2 =>
            obtain ⟨stB, is2⟩ := p2
            simp only [hasn] at h
            simp only [Except.ok.injEq, Prod.mk.injEq] at h
            obtain ⟨-, his⟩ := h
            rw [← his]
            exact noRetInst_append (adaptType_noret hadapt)
              (ihA _ _ _ _ _ hasn)
    · intro st l els ee st2 is h
      cases els with
      | nil =>
        simp only [assignRightElems, Except.ok.injEq, Prod.mk.injEq] at h
        obtain ⟨-, his⟩ := h
        rw [← his]
        exact noRetInst_nil
      | cons kv rest =>
        obtain ⟨key, rv⟩ := kv
        simp only [assignRightElems] at h
        cases hef : extractField st l ee key with
        | error e => rw [hef] at h; exact absurd h (by simp)
        | ok p =>
          obtain ⟨stE, is1, lev⟩ := p
          rw [hef] at h
          simp only [exceptBind_ok] at h
          cases hasn : assign n stE lev rv with
          | error e => rw [hasn] at h; exact absurd h (by simp)
          | ok p2 =>
            obtain ⟨stB, is2⟩ := p2
            rw [hasn] at h
            simp only [exceptBind_ok] at h
            cases hrec : assignRightElems n stB l rest (ee + 1) with
            | error e => rw [hrec] at h; exact absurd h (by simp)
            | ok p3 =>
              obtain ⟨stC, is3⟩ := p3
              rw [hrec] at h
              simp only [exceptBind_ok, Except.ok.injEq,
                Prod.mk.injEq] at h
              obtain ⟨-, his⟩ := h
              rw [← his]
              exact noRetInst_append
                (noRetInst_append (extractField_noret hef)
                  (ihA _ _ _ _ _ hasn)) (ihR _ _ _ _ _ _ hrec)
    · intro st r els ee st2 is h
      cases els with
      | nil =>
        simp only [assignLeftElems, Except.ok.injEq, Prod.mk.injEq] at h
        obtain ⟨-, his⟩ := h
        rw [← his]
        exact noRetInst_nil
      | cons kv rest =>
        obtain ⟨key, lv⟩ := kv
        simp only [assignLeftElems] at h
        cases hef : extractField st r ee key with
        | error e => rw [hef] at h; exact absurd h (by simp)
        | ok p =>
          obtain ⟨stE, is1, rev⟩ := p
          rw [hef] at h
          simp only [exceptBind_ok] at h
          cases hasn : assign n stE lv rev with
          | error e => rw [hasn] at h; exact absurd h (by simp)
          | ok p2 =>
            obtain ⟨stB, is2⟩ := p2
            rw [hasn] at h
            simp only [exceptBind_ok] at h
            cases hrec : assignLeftElems n stB r rest (ee + 1) with
            | error e => rw [hrec] at h; exact absurd h (by simp)
            | ok p3 =>
              obtain ⟨stC, is3⟩ := p3
              rw [hrec] at h
              simp only [exceptBind_ok, Except.ok.injEq,
                Prod.mk.injEq] at h
              obtain ⟨-, his⟩ := h
              rw [← his]
              exact noRetInst_append
                (noRetInst_append (extractField_noret hef)
                  (ihA _ _ _ _ _ hasn)) (ihL _ _ _ _ _ _ hrec)

/-- The subscript and materialize family emits no returnVal, jointly
by induction on the fuel. -/
theorem materialize_noret_all (fuel : Nat) :
    (∀ st et v iv st2 is r,
      getSubscriptVal fuel st et v iv = Except.ok (st2, is, r) →
        noRetInst is) ∧
    (∀ st fs els iv st2 is rs,
      getSubscriptFields fuel st fs els iv = Except.ok (st2, is, rs) →
        noRetInst is) ∧
    (∀ st et v idx st2 is r,
      getSubscriptValNat fuel st et v idx = Except.ok (st2, is, r) →
        noRetInst is) ∧
    (∀ st v st2 is r,
      materializeTupleValue fuel st v = Except.ok (st2, is, r) →
        noRetInst is) ∧
    (∀ st v et idxs st2 is rs,
      materializeArrayElems fuel st v et idxs = Except.ok (st2, is, rs) →
        noRetInst is) ∧
    (∀ st els st2 is rs,
      materializeElems fuel st els = Except.ok (st2, is, rs) →
        noRetInst is) ∧
    (∀ st v st2 is r,
      materializeValue fuel st v = Except.ok (st2, is, r) →
        noRetInst is) := by
  induction fuel with
  | zero =>
    refine ⟨?_, ?_, ?_, ?_, ?_, ?_, ?_⟩ <;> intro st a b <;>
      first
        | (intro c d e f h; simp [getSubscriptVal, getSubscriptFields,
            getSubscriptValNat, materializeArrayElems] at h)
        | (intro c d h; simp [materializeTupleValue, materializeElems,
            materializeValue] at h)
  | succ n ih =>
    obtain ⟨ih1, ih2, ih3, ih4, ih5, ih6, ih7⟩ := ih
    refine ⟨?_, ?_, ?_, ?_, ?_, ?_, ?_⟩
    · intro st et v iv st2 is r h
      cases v with
      | none => simp [getSubscriptVal] at h
      | typeAdapter a b c => simp [getSubscriptVal] at h
      | value v0 =>
        simp only [getSubscriptVal, freshInst, Except.ok.injEq,
          Prod.mk.injEq] at h
        obtain ⟨-, his, -⟩ := h
        rw [← his]
        simp [noRetInst, Inst.op]
      | address a =>
        simp only [getSubscriptVal, freshInst, Except.ok.injEq,
          Prod.mk.injEq] at h
        obtain ⟨-, his, -⟩ := h
        rw [← his]
        simp [noRetInst, Inst.op]
      | tuple ty els =>
        cases et
        case structT tag fs =>
          simp only [getSubscriptVal] at h
          cases hgf : getSubscriptFields n st fs els iv with
          | error e => rw [hgf] at h; exact absurd h (by simp)
          | ok p =>
            obtain ⟨stF, isF, rsF⟩ := p
            rw [hgf] at h
            simp only [exceptBind_ok, Except.ok.injEq, Prod.mk.injEq] at h
            obtain ⟨-, his, -⟩ := h
            rw [← his]
            exact ih2 _ _ _ _ _ _ _ hgf
        all_goals simp [getSubscriptVal] at h
    · intro st fs els iv st2 is rs h
      cases fs with
      | nil =>
        cases els with
        | nil =>
          simp only [getSubscriptFields, Except.ok.injEq,
            Prod.mk.injEq] at h
          obtain ⟨-, his, -⟩ := h
          rw [← his]
          exact noRetInst_nil
        | cons e rest => simp [getSubscriptFields] at h
      | cons fld restF =>
        cases els with
        | nil => simp [getSubscriptFields] at h
        | cons el restE =>
          obtain ⟨fkey, ftype⟩ := fld
          obtain ⟨ekey, ev⟩ := el
          simp only [getSubscriptFields] at h
          cases hsv : getSubscriptVal n st ftype ev iv with
          | error e => rw [hsv] at h; exact absurd h (by simp)
          | ok p =>
            obtain ⟨stS, is1, sub⟩ := p
            rw [hsv] at h
            simp only [exceptBind_ok] at h
            cases hrec : getSubscriptFields n stS restF restE iv with
            | error e => rw [hrec] at h; exact absurd h (by simp)
            | ok p2 =>
              obtain ⟨stR, is2, rest2⟩ := p2
              rw [hrec] at h
              simp only [exceptBind_ok, Except.ok.injEq,
                Prod.mk.injEq] at h
              obtain ⟨-, his, -⟩ := h
              rw [← his]
              exact noRetInst_append (ih1 _ _ _ _ _ _ _ hsv)
                (ih2 _ _ _ _ _ _ _ hrec)
    · intro st et v idx st2 is r h
      simp only [getSubscriptValNat, getIntValue, freshInst] at h
      exact ih1 _ _ _ _ _ _ _ h
    · intro st v st2 is r h
      cases v with
      | none => simp [materializeTupleValue] at h
      | value v0 => simp [materializeTupleValue] at h
      | address a => simp [materializeTupleValue] at h
      | typeAdapter a b c => simp [materializeTupleValue] at h
      | tuple ty els =>
        cases ty
        case arrayT et cnt =>
          simp only [materializeTupleValue] at h
          cases hae : materializeArrayElems n st
            (.tuple (.arrayT et cnt) els) et (List.range cnt) with
          | error e => rw [hae] at h; exact absurd h (by simp)
          | ok p =>
            obtain ⟨stA, isA, vals⟩ := p
            rw [hae] at h
            simp only [exceptBind_ok, freshInst, Except.ok.injEq,
              Prod.mk.injEq] at h
            obtain ⟨-, his, -⟩ := h
            rw [← his]
            refine noRetInst_append (ih5 _ _ _ _ _ _ _ hae) ?_
            simp [noRetInst, Inst.op]
        all_goals (
          simp only [materializeTupleValue] at h
          cases hme : materializeElems n st els with
          | error e => rw [hme] at h; exact absurd h (by simp)
          | ok p =>
            obtain ⟨stE, isE, vals⟩ := p
            rw [hme] at h
            simp only [exceptBind_ok, freshInst, Except.ok.injEq,
              Prod.mk.injEq] at h
            obtain ⟨-, his, -⟩ := h
            rw [← his]
            refine noRetInst_append (ih6 _ _ _ _ _ hme) ?_
            simp [noRetInst, Inst.op])
    · intro st v et idxs st2 is rs h
      cases idxs with
      | nil =>
        simp only [materializeArrayElems, Except.ok.injEq,
          Prod.mk.injEq] at h
        obtain ⟨-, his, -⟩ := h
        rw [← his]
        exact noRetInst_nil
      | cons ii rest =>
        simp only [materializeArrayElems] at h
        cases hsv : getSubscriptValNat n st et v ii with
        | error e => rw [hsv] at h; exact absurd h (by simp)
        | ok p =>
          obtain ⟨stS, is1, pseudo⟩ := p
          rw [hsv] at h
          simp only [exceptBind_ok] at h
          cases hmv : materializeValue n stS pseudo with
          | error e => rw [hmv] at h; exact absurd h (by simp)
          | ok p2 =>
            obtain ⟨stM, is2, v2⟩ := p2
            rw [hmv] at h
            simp only [exceptBind_ok] at h
            cases hrec : materializeArrayElems n stM v et rest with
            | error e => rw [hrec] at h; exact absurd h (by simp)
            | ok p3 =>
              obtain ⟨stR, is3, vs⟩ := p3
              rw [hrec] at h
              simp only [exceptBind_ok, Except.ok.injEq,
                Prod.mk.injEq] at h
              obtain ⟨-, his, -⟩ := h
              rw [← his]
              exact noRetInst_append
                (noRetInst_append (ih3 _ _ _ _ _ _ _ hsv)
                  (ih7 _ _ _ _ _ hmv)) (ih5 _ _ _ _ _ _ _ hrec)
    · intro st els st2 is rs h
      cases els with
      | nil =>
        simp only [materializeElems, Except.ok.injEq, Prod.mk.injEq] at h
        obtain ⟨-, his, -⟩ := h
        rw [← his]
        exact noRetInst_nil
      | cons el rest =>
        obtain ⟨key, ev⟩ := el
        simp only [materializeElems] at h
        cases hmv : materializeValue n st ev with
        | error e => rw [hmv] at h; exact absurd h (by simp)
        | ok p =>
          obtain ⟨stM, is1, v1⟩ := p
          rw [hmv] at h
          simp only [exceptBind_ok] at h
          cases hrec : materializeElems n stM rest with
          | error e => rw [hrec] at h; exact absurd h (by simp)
          | ok p2 =>
            obtain ⟨stR, is2, vs⟩ := p2
            rw [hrec] at h
            simp only [exceptBind_ok, Except.ok.injEq, Prod.mk.injEq] at h
            obtain ⟨-, his, -⟩ := h
            rw [← his]
            exact noRetInst_append (ih7 _ _ _ _ _ hmv)
              (ih6 _ _ _ _ _ hrec)
    · intro st v st2 is r h
      cases v with
      | none => simp [materializeValue] at h
      | value v0 =>
        simp only [materializeValue, Except.ok.injEq, Prod.mk.injEq] at h
        obtain ⟨-, his, -⟩ := h
        rw [← his]
        exact noRetInst_nil
      | address a =>
        simp only [materializeValue] at h
        cases hl : emitLoad st a with
        | error e => rw [hl] at h; exact absurd h (by simp)
        | ok p =>
          obtain ⟨loadInst, stL⟩ := p
          rw [hl] at h
          simp only [Except.ok.injEq, Prod.mk.injEq] at h
          obtain ⟨-, his, -⟩ := h
          rw [← his]
          intro i hi
          simp only [List.mem_cons, List.not_mem_nil, or_false] at hi
          subst hi
          rw [emitLoad_op hl]
          simp
      | tuple ty els =>
        simp only [materializeValue] at h
        exact ih4 _ _ _ _ _ h
      | typeAdapter inner act pret =>
        simp only [materializeValue] at h
        cases hadapt : adaptType st inner pret act with
        | error e => rw [hadapt] at h; exact absurd h (by simp)
        | ok p =>
          obtain ⟨stA, is1, adapted⟩ := p
          simp only [hadapt] at h
          cases hmv : materializeValue n stA adapted with
          | error e => rw [hmv] at h; exact absurd h (by simp)
          | ok p2 =>
            obtain ⟨stM, is2, v2⟩ := p2
            simp only [hmv] at h
            simp only [Except.ok.injEq, Prod.mk.injEq] at h
            obtain ⟨-, his, -⟩ := h
            rw [← his]
            exact noRetInst_append (adaptType_noret hadapt)
              (ih7 _ _ _ _ _ hmv)

/-- The tail of a well-formed body is well formed. -/
theorem TermOnly_tail {ii : Inst} {rest : List Inst}
    (h : TermOnly (ii :: rest)) : TermOnly rest :=
  fun l1 i l2 heq hop => h (ii :: l1) i l2 (by rw [heq]; rfl) hop

/-- A true isReturnValOp means the opcode is returnVal. -/
theorem isReturnValOp_eq {o : IROp} (h : isReturnValOp o = true) :
    o = IROp.returnVal := by
  cases o <;> first | rfl | simp [isReturnValOp] at h

/-- The returnVal scan of one block leaves no returnVal behind, and
leaves a returnVoid wherever it found a returnVal. -/
theorem rewriteReturnInsts_noret (fuel : Nat) (rg : ScalarizedVal) :
    ∀ (l : List Inst) (st st2 : St) (l' : List Inst), TermOnly l →
      rewriteReturnInsts fuel st rg l = .ok (st2, l') →
      noRetInst l' ∧
      ((∃ i ∈ l, i.op = IROp.returnVal) →
        ∃ i' ∈ l', i'.op = IROp.returnVoid) := by
  intro l
  induction l with
  | nil =>
    intro st st2 l' hterm h
    simp only [rewriteReturnInsts, Except.ok.injEq, Prod.mk.injEq] at h
    obtain ⟨-, hl⟩ := h
    rw [← hl]
    exact ⟨noRetInst_nil, by simp⟩
  | cons ii rest ihl =>
    intro st st2 l' hterm h
    by_cases hop : isReturnValOp ii.op = true
    · have hopeq := isReturnValOp_eq hop
      have hrest : rest = [] := hterm [] ii rest rfl hopeq
      subst hrest
      simp only [rewriteReturnInsts, hop, if_true] at h
      cases ho2 : ii.operands with
      | nil => rw [ho2] at h; exact absurd h (by simp)
      | cons rv ops =>
        simp only [ho2] at h
        cases hassign : assign fuel st rg (.value rv) with
        | error e => rw [hassign] at h; exact absurd h (by simp)
        | ok p =>
          obtain ⟨stA, emitted⟩ := p
          rw [hassign] at h
          simp only [exceptBind_ok, freshInst, Except.ok.injEq,
            Prod.mk.injEq, List.nil_append] at h
          obtain ⟨-, hl⟩ := h
          rw [← hl]
          constructor
          · refine noRetInst_append ((assign_noret_all fuel).1 _ _ _ _ _
              hassign) ?_
            simp [noRetInst, Inst.op]
          · intro hex
            exact ⟨.mk stA.fresh .returnVoid .voidT [], by simp, rfl⟩
    · simp only [rewriteReturnInsts, hop, if_false, Bool.false_eq_true] at h
      cases hrec : rewriteReturnInsts fuel st rg rest with
      | error e => rw [hrec] at h; exact absurd h (by simp)
      | ok p =>
        obtain ⟨stR, rest2⟩ := p
        rw [hrec] at h
        simp only [exceptBind_ok, Except.ok.injEq, Prod.mk.injEq] at h
        obtain ⟨-, hl⟩ := h
        rw [← hl]
        obtain ⟨hnr, hrv⟩ := ihl st stR rest2 (TermOnly_tail hterm) hrec
        constructor
        · intro i hi
          rcases List.mem_cons.mp hi with rfl | hi2
          · intro heq; rw [heq] at hop; exact hop rfl
          · exact hnr i hi2
        · intro hex
          obtain ⟨i, hi, hieq⟩ := hex
          rcases List.mem_cons.mp hi with rfl | hi2
          · rw [hieq] at hop; exact absurd rfl hop
          · obtain ⟨i', hi', hieq'⟩ := hrv ⟨i, hi2, hieq⟩
            exact ⟨i', List.mem_cons_of_mem ii hi', hieq'⟩

/-- The returnVal scan over all blocks preserves the block count,
leaves no returnVal anywhere, and leaves a returnVoid in every block
that contained a returnVal. -/
theorem rewriteReturnBlocks_noret (fuel : Nat) (rg : ScalarizedVal) :
    ∀ (bs : List Block) (st st2 : St) (bs' : List Block),
      (∀ b ∈ bs, TermOnly b.insts) →
      rewriteReturnBlocks fuel st rg bs = .ok (st2, bs') →
      bs'.length = bs.length ∧
      (∀ b' ∈ bs', noRetInst b'.insts) ∧
      (∀ j (hj : j < bs.length) (hj' : j < bs'.length),
        (∃ i ∈ (bs.get ⟨j, hj⟩).insts, i.op = IROp.returnVal) →
        ∃ i' ∈ (bs'.get ⟨j, hj'⟩).insts, i'.op = IROp.returnVoid) := by
  intro bs
  induction bs with
  | nil =>
    intro st st2 bs' hterm h
    simp only [rewriteReturnBlocks, Except.ok.injEq, Prod.mk.injEq] at h
    obtain ⟨-, hl⟩ := h
    rw [← hl]
    refine ⟨rfl, by simp, ?_⟩
    intro j hj
    exact absurd hj (by simp)
  | cons b rest ihb =>
    intro st st2 bs' hterm h
    simp only [rewriteReturnBlocks] at h
    cases hri : rewriteReturnInsts fuel st rg b.insts with
    | error e => rw [hri] at h; exact absurd h (by simp)
    | ok p =>
      obtain ⟨stB, insts2⟩ := p
      rw [hri] at h
      simp only [exceptBind_ok] at h
      cases hrec : rewriteReturnBlocks fuel stB rg rest with
      | error e => rw [hrec] at h; exact absurd h (by simp)
      | ok p2 =>
        obtain ⟨stR, rest2⟩ := p2
        rw [hrec] at h
        simp only [exceptBind_ok, Except.ok.injEq, Prod.mk.injEq] at h
        obtain ⟨-, hl⟩ := h
        rw [← hl]
        obtain ⟨hb1, hb2⟩ := rewriteReturnInsts_noret fuel rg b.insts st
          stB insts2 (hterm b (by simp)) hri
        obtain ⟨hlen, hnr, hrv⟩ := ihb stB stR rest2
          (fun b2 hb2m => hterm b2 (List.mem_cons_of_mem b hb2m)) hrec
        refine ⟨by simp [hlen], ?_, ?_⟩
        · intro b' hb'
          rcases List.mem_cons.mp hb' with rfl | hb'2
          · exact hb1
          · exact hnr b' hb'2
        · intro j hj hj'
          cases j with
          | zero => intro hex; exact hb2 hex
          | succ jj =>
            intro hex
            exact hrv jj (by simpa using hj) (by simpa using hj') hex

/-- InstsMaintained is reflexive. -/
theorem InstsMaintained_refl (l : List Inst) : InstsMaintained l l :=
  ⟨fun h => h, fun _ h => h⟩

/-- InstsMaintained composes. -/
theorem InstsMaintained_trans {a b c : List Inst}
    (h1 : InstsMaintained a b) (h2 : InstsMaintained b c) :
    InstsMaintained a c :=
  ⟨fun h => h2.1 (h1.1 h), fun o h => h2.2 o (h1.2 o h)⟩

/-- Inserting returnVal-free instructions maintains a body. -/
theorem InstsMaintained_insert (l : List Inst) (k : Nat)
    (new : List Inst) (hnew : noRetInst new) :
    InstsMaintained l (insertIntoList l k new) := by
  constructor
  · intro hl i hi
    unfold insertIntoList at hi
    rcases List.mem_append.mp hi with hi1 | hi2
    · rcases List.mem_append.mp hi1 with hi3 | hi4
      · exact hl i (List.mem_of_mem_take hi3)
      · exact hnew i hi4
    · exact hl i (List.mem_of_mem_drop hi2)
  · intro o ⟨i, hi, hieq⟩
    refine ⟨i, ?_, hieq⟩
    unfold insertIntoList
    rw [← List.take_append_drop k l] at hi
    rcases List.mem_append.mp hi with hi1 | hi2
    · exact List.mem_append.mpr (Or.inl (List.mem_append.mpr (Or.inl hi1)))
    · exact List.mem_append.mpr (Or.inr hi2)

/-- Mapping an opcode-preserving function maintains a body. -/
theorem InstsMaintained_map (l : List Inst) (g : Inst → Inst)
    (hg : ∀ i, (g i).op = i.op) : InstsMaintained l (l.map g) := by
  constructor
  · intro hl i hi
    obtain ⟨i0, hi0, rfl⟩ := List.mem_map.mp hi
    rw [hg i0]
    exact hl i0 hi0
  · intro o ⟨i, hi, hieq⟩
    exact ⟨g i, List.mem_map_of_mem g hi, by rw [hg i, hieq]⟩

/-- replaceOperand preserves the opcode. -/
theorem replaceOperand_op (oldId : Nat) (newInst : Inst) (i : Inst) :
    (replaceOperand oldId newInst i).op = i.op := by
  cases i
  rfl

/-- BlocksMaintained is reflexive. -/
theorem BlocksMaintained_refl (bs : List Block) : BlocksMaintained bs bs :=
  ⟨rfl, fun _ _ _ => InstsMaintained_refl _⟩

/-- BlocksMaintained composes. -/
theorem BlocksMaintained_trans {a b c : List Block}
    (h1 : BlocksMaintained a b) (h2 : BlocksMaintained b c) :
    BlocksMaintained a c := by
  obtain ⟨hl1, hp1⟩ := h1
  obtain ⟨hl2, hp2⟩ := h2
  refine ⟨hl2.trans hl1, fun j hj hj' => ?_⟩
  exact InstsMaintained_trans (hp1 j hj (hl1 ▸ hj)) (hp2 j (hl1 ▸ hj) hj')

/-- replaceUsesWith maintains all blocks. -/
theorem replaceUsesWith_maintained (f : IRFunc) (oldId : Nat)
    (newInst : Inst) :
    BlocksMaintained f.blocks (replaceUsesWith f oldId newInst).blocks := by
  refine ⟨by simp [replaceUsesWith], fun j hj hj' => ?_⟩
  have hget : (replaceUsesWith f oldId newInst).blocks.get ⟨j, hj'⟩ =
      { f.blocks.get ⟨j, hj⟩ with
        insts := (f.blocks.get ⟨j, hj⟩).insts.map
          (replaceOperand oldId newInst) } := by
    simp [replaceUsesWith, List.getElem_map]
  rw [hget]
  exact InstsMaintained_map _ _ (replaceOperand_op oldId newInst)

/-- builderInsert of returnVal-free instructions maintains all
blocks. -/
theorem builderInsert_maintained (f : IRFunc) (b : Builder)
    (new : List Inst) (hnew : noRetInst new) :
    BlocksMaintained f.blocks (builderInsert f b new).1.blocks := by
  refine ⟨by simp [builderInsert], fun j hj hj' => ?_⟩
  have hget : (builderInsert f b new).1.blocks.get ⟨j, hj'⟩ =
      (if j = b.blockIdx then
        { f.blocks.get ⟨j, hj⟩ with
          insts := insertIntoList (f.blocks.get ⟨j, hj⟩).insts
            b.instIdx new }
       else f.blocks.get ⟨j, hj⟩) := by
    simp [builderInsert, List.get_mapIdx]
  rw [hget]
  by_cases hj0 : j = b.blockIdx
  · rw [if_pos hj0]
    exact InstsMaintained_insert _ _ _ hnew
  · rw [if_neg hj0]
    exact InstsMaintained_refl _

/-- The EmitVertex scan of one block maintains its body. -/
theorem legalizeStreamBlockInsts_maintained (fuel : Nat)
    (gv : ScalarizedVal) :
    ∀ (l : List Inst) (st st2 : St) (l' : List Inst),
      legalizeStreamBlockInsts fuel st gv l = .ok (st2, l') →
      InstsMaintained l l' := by
  intro l
  induction l with
  | nil =>
    intro st st2 l' h
    simp only [legalizeStreamBlockInsts, Except.ok.injEq,
      Prod.mk.injEq] at h
    obtain ⟨-, hl⟩ := h
    rw [← hl]
    exact InstsMaintained_refl []
  | cons ii rest ihl =>
    intro st st2 l' h
    by_cases hev : isEmitVertexCall ii = true
    · simp only [legalizeStreamBlockInsts, hev, if_true] at h
      cases harg : ii.getOperand 2 with
      | none => rw [harg] at h; exact absurd h (by simp)
      | some arg =>
        simp only [harg] at h
        cases hassign : assign fuel st gv (.value arg) with
        | error e => rw [hassign] at h; exact absurd h (by simp)
        | ok p =>
          obtain ⟨stA, emitted⟩ := p
          rw [hassign] at h
          simp only [exceptBind_ok] at h
          cases hrec : legalizeStreamBlockInsts fuel stA gv rest with
          | error e => rw [hrec] at h; exact absurd h (by simp)
          | ok p2 =>
            obtain ⟨stR, rest2⟩ := p2
            rw [hrec] at h
            simp only [exceptBind_ok, Except.ok.injEq, Prod.mk.injEq] at h
            obtain ⟨-, hl⟩ := h
            rw [← hl]
            obtain ⟨hnr, hmem⟩ := ihl stA stR rest2 hrec
            constructor
            · intro hclean i hi
              rcases List.mem_append.mp hi with hi1 | hi2
              · exact (assign_noret_all fuel).1 _ _ _ _ _ hassign i hi1
              · rcases List.mem_cons.mp hi2 with rfl | hi3
                · exact hclean i (by simp)
                · exact hnr (fun i0 hi0 => hclean i0
                    (List.mem_cons_of_mem ii hi0)) i hi3
            · intro o ⟨i, hi, hieq⟩
              rcases List.mem_cons.mp hi with rfl | hi2
              · exact ⟨i, List.mem_append.mpr (Or.inr (by simp)), hieq⟩
              · obtain ⟨i', hi', hieq'⟩ := hmem o ⟨i, hi2, hieq⟩
                exact ⟨i', List.mem_append.mpr
                  (Or.inr (List.mem_cons_of_mem ii hi')), hieq'⟩
    · simp only [legalizeStreamBlockInsts, hev, Bool.false_eq_true,
        if_false] at h
      cases hrec : legalizeStreamBlockInsts fuel st gv rest with
      | error e => rw [hrec] at h; exact absurd h (by simp)
      | ok p =>
        obtain ⟨stR, rest2⟩ := p
        rw [hrec] at h
        simp only [exceptBind_ok, Except.ok.injEq, Prod.mk.injEq] at h
        obtain ⟨-, hl⟩ := h
        rw [← hl]
        obtain ⟨hnr, hmem⟩ := ihl st stR rest2 hrec
        constructor
        · intro hclean i hi
          rcases List.mem_cons.mp hi with rfl | hi2
          · exact hclean i (by simp)
          · exact hnr (fun i0 hi0 => hclean i0
              (List.mem_cons_of_mem ii hi0)) i hi2
        · intro o ⟨i, hi, hieq⟩
          rcases List.mem_cons.mp hi with rfl | hi2
          · exact ⟨i, by simp, hieq⟩
          · obtain ⟨i', hi', hieq'⟩ := hmem o ⟨i, hi2, hieq⟩
            exact ⟨i', List.mem_cons_of_mem ii hi', hieq'⟩

/-- The EmitVertex scan maintains all blocks. -/
theorem legalizeStreamBlocks_maintained (fuel : Nat) (gv : ScalarizedVal) :
    ∀ (bs : List Block) (st st2 : St) (bs' : List Block),
      legalizeStreamBlocks fuel st gv bs = .ok (st2, bs') →
      BlocksMaintained bs bs' := by
  intro bs
  induction bs with
  | nil =>
    intro st st2 bs' h
    simp only [legalizeStreamBlocks, Except.ok.injEq, Prod.mk.injEq] at h
    obtain ⟨-, hl⟩ := h
    rw [← hl]
    exact BlocksMaintained_refl []
  | cons b rest ihb =>
    intro st st2 bs' h
    simp only [legalizeStreamBlocks] at h
    cases hbi : legalizeStreamBlockInsts fuel st gv b.insts with
    | error e => rw [hbi] at h; exact absurd h (by simp)
    | ok p =>
      obtain ⟨stB, insts2⟩ := p
      rw [hbi] at h
      simp only [exceptBind_ok] at h
      cases hrec : legalizeStreamBlocks fuel stB gv rest with
      | error e => rw [hrec] at h; exact absurd h (by simp)
      | ok p2 =>
        obtain ⟨stR, rest2⟩ := p2
        rw [hrec] at h
        simp only [exceptBind_ok, Except.ok.injEq, Prod.mk.injEq] at h
        obtain ⟨-, hl⟩ := h
        rw [← hl]
        obtain ⟨hlen, hper⟩ := ihb stB stR rest2 hrec
        refine ⟨by simp [hlen], fun j hj hj' => ?_⟩
        cases j with
        | zero =>
          exact legalizeStreamBlockInsts_maintained fuel gv b.insts st stB
            insts2 hbi
        | succ jj => exact hper jj (by simpa using hj) (by simpa using hj')

/-- The out-parameter return scan maintains all blocks. -/
theorem legalizeOutReturns_maintained (fuel : Nat)
    (gv lv : ScalarizedVal) :
    ∀ (bs : List Block) (st st2 : St) (bs' : List Block),
      legalizeOutReturns fuel st gv lv bs = .ok (st2, bs') →
      BlocksMaintained bs bs' := by
  intro bs
  induction bs with
  | nil =>
    intro st st2 bs' h
    simp only [legalizeOutReturns, Except.ok.injEq, Prod.mk.injEq] at h
    obtain ⟨-, hl⟩ := h
    rw [← hl]
    exact BlocksMaintained_refl []
  | cons b rest ihb =>
    intro st st2 bs' h
    rw [legalizeOutReturns] at h
    cases hlast : b.insts.getLast? with
    | none =>
      simp only [hlast] at h
      cases hrec : legalizeOutReturns fuel st gv lv rest with
      | error e => rw [hrec] at h; exact absurd h (by simp)
      | ok p =>
        obtain ⟨stR, rest2⟩ := p
        rw [hrec] at h
        simp only [exceptBind_ok, Except.ok.injEq, Prod.mk.injEq] at h
        obtain ⟨-, hl⟩ := h
        rw [← hl]
        obtain ⟨hlen, hper⟩ := ihb st stR rest2 hrec
        refine ⟨by simp [hlen], fun j hj hj' => ?_⟩
        cases j with
        | zero => exact InstsMaintained_refl _
        | succ jj => exact hper jj (by simpa using hj) (by simpa using hj')
    | some t =>
      simp only [hlast] at h
      by_cases hro : isReturnOp t.op = true
      · rw [if_pos hro] at h
        cases hassign : assign fuel st gv lv with
        | error e => rw [hassign] at h; exact absurd h (by simp)
        | ok p =>
          obtain ⟨stA, emitted⟩ := p
          rw [hassign] at h
          simp only [exceptBind_ok] at h
          cases hrec : legalizeOutReturns fuel stA gv lv rest with
          | error e => rw [hrec] at h; exact absurd h (by simp)
          | ok p2 =>
            obtain ⟨stR, rest2⟩ := p2
            rw [hrec] at h
            simp only [exceptBind_ok, Except.ok.injEq, Prod.mk.injEq] at h
            obtain ⟨-, hl⟩ := h
            rw [← hl]
            obtain ⟨hlen, hper⟩ := ihb stA stR rest2 hrec
            refine ⟨by simp [hlen], fun j hj hj' => ?_⟩
            cases j with
            | succ jj =>
              exact hper jj (by simpa using hj) (by simpa using hj')
            | zero =>
              obtain ⟨front, hfront⟩ := List.getLast?_eq_some_iff.mp hlast
              simp only [List.get]
              rw [hfront, List.dropLast_concat]
              constructor
              · intro hclean i hi
                rcases List.mem_append.mp hi with hi1 | hi2
                · rcases List.mem_append.mp hi1 with hi3 | hi4
                  · exact hclean i (List.mem_append.mpr (Or.inl hi3))
                  · exact (assign_noret_all fuel).1 _ _ _ _ _ hassign
                      i hi4
                · rcases List.mem_cons.mp hi2 with rfl | hi3
                  · exact hclean i (List.mem_append.mpr (Or.inr (by simp)))
                  · exact absurd hi3 (List.not_mem_nil i)
              · intro o ⟨i, hi, hieq⟩
                rcases List.mem_append.mp hi with hi1 | hi2
                · exact ⟨i, List.mem_append.mpr (Or.inl
                    (List.mem_append.mpr (Or.inl hi1))), hieq⟩
                · exact ⟨i, List.mem_append.mpr (Or.inr hi2), hieq⟩
      · rw [if_neg hro] at h
        cases hrec : legalizeOutReturns fuel st gv lv rest with
        | error e => rw [hrec] at h; exact absurd h (by simp)
        | ok p =>
          obtain ⟨stR, rest2⟩ := p
          rw [hrec] at h
          simp only [exceptBind_ok, Except.ok.injEq, Prod.mk.injEq] at h
          obtain ⟨-, hl⟩ := h
          rw [← hl]
          obtain ⟨hlen, hper⟩ := ihb st stR rest2 hrec
          refine ⟨by simp [hlen], fun j hj hj' => ?_⟩
          cases j with
          | zero => exact InstsMaintained_refl _
          | succ jj =>
            exact hper jj (by simpa using hj) (by simpa using hj')

/-- Parameter legalization maintains all blocks: it only inserts
returnVal-free instructions and rewrites operands. -/
theorem legalizeEntryPointParameterForGLSL_maintained (fuel : Nat)
    (ctx : GLSLLegalizationContext) (st : St) (f : IRFunc)
    (builder : Builder) (pp : Inst) (pl : VarLayout) (st2 : St)
    (f2 : IRFunc) (b2 : Builder)
    (h : legalizeEntryPointParameterForGLSL fuel ctx st f builder pp pl
      = .ok (st2, f2, b2)) :
    BlocksMaintained f.blocks f2.blocks := by
  unfold legalizeEntryPointParameterForGLSL at h
  cases hov : outTypeBaseValue pp.type with
  | some valueType =>
    simp only [hov] at h
    cases hse : streamOutputElem valueType with
    | some e =>
      rw [hse] at h
      unfold legalizeStreamOutParam at h
      cases hcv : createGLSLGlobalVaryings ctx st valueType pl
        .varyingOutput ctx.stage with
      | error er => rw [hcv] at h; exact absurd h (by simp)
      | ok p =>
        obtain ⟨stV, gv⟩ := p
        rw [hcv] at h
        simp only [exceptBind_ok] at h
        cases hsb : legalizeStreamBlocks fuel stV gv f.blocks with
        | error er => rw [hsb] at h; exact absurd h (by simp)
        | ok p2 =>
          obtain ⟨stB, blocks2⟩ := p2
          rw [hsb] at h
          simp only [exceptBind_ok, freshInst, Except.ok.injEq,
            Prod.mk.injEq] at h
          obtain ⟨-, hf2, -⟩ := h
          rw [← hf2]
          refine BlocksMaintained_trans
            (legalizeStreamBlocks_maintained fuel gv f.blocks stV stB
              blocks2 hsb) ?_
          refine BlocksMaintained_trans
            (builderInsert_maintained { f with blocks := blocks2 } ⟨0, 0⟩
              [.mk stB.fresh .undefined pp.type []]
              (by simp [noRetInst, Inst.op])) ?_
          exact replaceUsesWith_maintained _ pp.id _
    | none =>
      rw [hse] at h
      by_cases hrt : isRayTracingStage ctx.stage = true
      · simp only [hrt, if_true] at h
        simp only [legalizeRayTracingEntryPointParameterForGLSL,
          addGlobalParam, freshInst, addDecoration, Except.ok.injEq,
          Prod.mk.injEq] at h
        obtain ⟨-, hf2, -⟩ := h
        rw [← hf2]
        exact replaceUsesWith_maintained f pp.id _
      · simp only [hrt, Bool.false_eq_true, if_false] at h
        unfold legalizeOutInOutParam at h
        simp only [freshInst, exceptBind_ok] at h
        by_cases hio : isInOutType pp.type = true
        · simp only [hio, if_true] at h
          cases hcvi : createGLSLGlobalVaryings ctx
            { st with fresh := st.fresh + 1 } valueType pl
            .varyingInput ctx.stage with
          | error er => rw [hcvi] at h; exact absurd h (by simp)
          | ok p =>
            obtain ⟨stI, giv⟩ := p
            rw [hcvi] at h
            simp only [exceptBind_ok] at h
            cases hassign : assign fuel stI
              (.address (.mk st.fresh .varOp (.ptrT valueType) [])) giv with
            | error er => rw [hassign] at h; exact absurd h (by simp)
            | ok p2 =>
              obtain ⟨stA, emitted⟩ := p2
              rw [hassign] at h
              simp only [exceptBind_ok] at h
              cases hcvo : createGLSLGlobalVaryings ctx stA valueType pl
                .varyingOutput ctx.stage with
              | error er => rw [hcvo] at h; exact absurd h (by simp)
              | ok p3 =>
                obtain ⟨stO, gov⟩ := p3
                rw [hcvo] at h
                simp only [exceptBind_ok] at h
                cases hor : legalizeOutReturns fuel stO gov
                  (.address (.mk st.fresh .varOp (.ptrT valueType) []))
                  (replaceUsesWith
                    (builderInsert
                      (builderInsert f builder
                        [.mk st.fresh .varOp (.ptrT valueType) []]).1
                      (builderInsert f builder
                        [.mk st.fresh .varOp (.ptrT valueType) []]).2
                      emitted).1
                    pp.id (.mk st.fresh .varOp (.ptrT valueType) [])).blocks
                  with
                | error er => rw [hor] at h; exact absurd h (by simp)
                | ok p4 =>
                  obtain ⟨stR, blocksR⟩ := p4
                  rw [hor] at h
                  simp only [exceptBind_ok, Except.ok.injEq,
                    Prod.mk.injEq] at h
                  obtain ⟨-, hf2, -⟩ := h
                  rw [← hf2]
                  refine BlocksMaintained_trans
                    (builderInsert_maintained f builder
                      [.mk st.fresh .varOp (.ptrT valueType) []]
                      (by simp [noRetInst, Inst.op])) ?_
                  refine BlocksMaintained_trans
                    (builderInsert_maintained
                      (builderInsert f builder
                        [.mk st.fresh .varOp (.ptrT valueType) []]).1
                      (builderInsert f builder
                        [.mk st.fresh .varOp (.ptrT valueType) []]).2
                      emitted
                      ((assign_noret_all fuel).1 _ _ _ _ _ hassign)) ?_
                  refine BlocksMaintained_trans
                    (replaceUsesWith_maintained _ pp.id
                      (.mk st.fresh .varOp (.ptrT valueType) [])) ?_
                  exact legalizeOutReturns_maintained fuel gov _ _ stO stR
                    blocksR hor
        · simp only [hio, Bool.false_eq_true, if_false, exceptBind_ok] at h
          cases hcvo : createGLSLGlobalVaryings ctx
            { st with fresh := st.fresh + 1 } valueType pl
            .varyingOutput ctx.stage with
          | error er => rw [hcvo] at h; exact absurd h (by simp)
          | ok p3 =>
            obtain ⟨stO, gov⟩ := p3
            rw [hcvo] at h
            simp only [exceptBind_ok] at h
            cases hor : legalizeOutReturns fuel stO gov
              (.address (.mk st.fresh .varOp (.ptrT valueType) []))
              (replaceUsesWith
                (builderInsert f builder
                  [.mk st.fresh .varOp (.ptrT valueType) []]).1
                pp.id (.mk st.fresh .varOp (.ptrT valueType) [])).blocks
              with
            | error er => rw [hor] at h; exact absurd h (by simp)
            | ok p4 =>
              obtain ⟨stR, blocksR⟩ := p4
              rw [hor] at h
              simp only [exceptBind_ok, Except.ok.injEq,
                Prod.mk.injEq] at h
              obtain ⟨-, hf2, -⟩ := h
              rw [← hf2]
              refine BlocksMaintained_trans
                (builderInsert_maintained f builder
                  [.mk st.fresh .varOp (.ptrT valueType) []]
                  (by simp [noRetInst, Inst.op])) ?_
              refine BlocksMaintained_trans
                (replaceUsesWith_maintained _ pp.id
                  (.mk st.fresh .varOp (.ptrT valueType) [])) ?_
              exact legalizeOutReturns_maintained fuel gov _ _ stO stR
                blocksR hor
  | none =>
    simp only [hov] at h
    by_cases hrt : isRayTracingStage ctx.stage = true
    · simp only [hrt, if_true] at h
      simp only [legalizeRayTracingEntryPointParameterForGLSL,
        addGlobalParam, freshInst, addDecoration, Except.ok.injEq,
        Prod.mk.injEq] at h
      obtain ⟨-, hf2, -⟩ := h
      rw [← hf2]
      exact replaceUsesWith_maintained f pp.id _
    · simp only [hrt, Bool.false_eq_true, if_false] at h
      unfold legalizeOrdinaryInParam at h
      cases hcv : createGLSLGlobalVaryings ctx st pp.type pl
        .varyingInput ctx.stage with
      | error er => rw [hcv] at h; exact absurd h (by simp)
      | ok p =>
        obtain ⟨stV, gval⟩ := p
        rw [hcv] at h
        simp only [exceptBind_ok] at h
        cases hmv : materializeValue fuel stV gval with
        | error er => rw [hmv] at h; exact absurd h (by simp)
        | ok p2 =>
          obtain ⟨stM, emitted, materialized⟩ := p2
          rw [hmv] at h
          simp only [exceptBind_ok, Except.ok.injEq, Prod.mk.injEq] at h
          obtain ⟨-, hf2, -⟩ := h
          rw [← hf2]
          refine BlocksMaintained_trans
            (builderInsert_maintained f builder emitted
              ((materialize_noret_all fuel).2.2.2.2.2.2 _ _ _ _ _ hmv)) ?_
          exact replaceUsesWith_maintained _ pp.id _

/-- The parameter loop maintains all blocks. -/
theorem paramsLoop_maintained (fuel : Nat) (ctx : GLSLLegalizationContext) :
    ∀ (ps : List (Inst × List Decoration)) (st : St) (f : IRFunc)
      (builder : Builder) (st2 : St) (f2 : IRFunc) (b2 : Builder),
      paramsLoop fuel ctx st f builder ps = .ok (st2, f2, b2) →
      BlocksMaintained f.blocks f2.blocks := by
  intro ps
  induction ps with
  | nil =>
    intro st f builder st2 f2 b2 h
    simp only [paramsLoop, Except.ok.injEq, Prod.mk.injEq] at h
    obtain ⟨-, hf, -⟩ := h
    rw [← hf]
    exact BlocksMaintained_refl _
  | cons pd rest ihp =>
    intro st f builder st2 f2 b2 h
    obtain ⟨pp, ppDecorations⟩ := pd
    simp only [paramsLoop] at h
    cases hfl : findLayoutDecoration ppDecorations with
    | none => rw [hfl] at h; exact absurd h (by simp)
    | some payload =>
      cases payload with
      | entryPointL e => rw [hfl] at h; exact absurd h (by simp)
      | varL paramLayout =>
        simp only [hfl] at h
        cases hleg : legalizeEntryPointParameterForGLSL fuel ctx st f
          builder pp paramLayout with
        | error e => rw [hleg] at h; exact absurd h (by simp)
        | ok p =>
          obtain ⟨stL, fL, bL⟩ := p
          rw [hleg] at h
          simp only [exceptBind_ok] at h
          exact BlocksMaintained_trans
            (legalizeEntryPointParameterForGLSL_maintained fuel ctx st f
              builder pp paramLayout stL fL bL hleg)
            (ihp stL fL bL st2 f2 b2 h)

/-- Deleting the entry block's parameters leaves every body alone. -/
theorem clearFirstBlockParams_maintained (f : IRFunc) :
    BlocksMaintained f.blocks (clearFirstBlockParams f).blocks := by
  unfold clearFirstBlockParams
  cases hb : f.blocks with
  | nil =>
    simp only [hb]
    exact BlocksMaintained_refl _
  | cons b bs =>
    simp only [hb]
    refine ⟨by simp, fun j hj hj' => ?_⟩
    cases j with
    | zero => exact InstsMaintained_refl _
    | succ jj => exact InstsMaintained_refl _

/-- The whole parameter phase maintains all blocks. -/
theorem legalizeEntryPointParams_maintained (fuel : Nat)
    (ctx : GLSLLegalizationContext) (st : St) (f : IRFunc) (st2 : St)
    (f2 : IRFunc)
    (h : legalizeEntryPointParams fuel ctx st f = .ok (st2, f2)) :
    BlocksMaintained f.blocks f2.blocks := by
  unfold legalizeEntryPointParams at h
  cases hb : f.blocks with
  | nil =>
    rw [hb] at h
    simp only [exceptBind_ok] at h
    cases h
    simp only [hb]
    exact BlocksMaintained_refl _
  | cons firstBlock bs =>
    rw [hb] at h
    simp only [exceptBind_ok] at h
    cases hpl : paramsLoop fuel ctx st f ⟨0, 0⟩ firstBlock.params with
    | error e => simp [hpl] at h
    | ok p =>
      obtain ⟨stP, fP, bP⟩ := p
      simp only [hpl, exceptBind_ok, Except.ok.injEq, Prod.mk.injEq] at h
      obtain ⟨-, hf⟩ := h
      rw [← hf, ← hb]
      exact BlocksMaintained_trans
        (paramsLoop_maintained fuel ctx firstBlock.params st f ⟨0, 0⟩
          stP fP bP hpl)
        (clearFirstBlockParams_maintained fP)

/-- The EmitVertex scan of one block puts, immediately before every
EmitVertex call, a successfully emitted assign from the call's operand
at index 2 into the output varying. -/
theorem legalizeStreamBlockInsts_emit (fuel : Nat) (gv : ScalarizedVal) :
    ∀ (l : List Inst) (st st2 : St) (l' : List Inst),
      legalizeStreamBlockInsts fuel st gv l = .ok (st2, l') →
      ∀ ii ∈ l, isEmitVertexCall ii = true →
      ∀ arg, ii.getOperand 2 = some arg →
      ∃ (stA stB : St) (emitted pre post : List Inst),
        assign fuel stA gv (.value arg) = .ok (stB, emitted) ∧
        l' = pre ++ emitted ++ ii :: post := by
  intro l
  induction l with
  | nil =>
    intro st st2 l' h ii hii
    exact absurd hii (by simp)
  | cons jj rest ihl =>
    intro st st2 l' h ii hii hev arg harg
    by_cases hevj : isEmitVertexCall jj = true
    · simp only [legalizeStreamBlockInsts, hevj, if_true] at h
      cases hargj : jj.getOperand 2 with
      | none => rw [hargj] at h; exact absurd h (by simp)
      | some argj =>
        simp only [hargj] at h
        cases hassign : assign fuel st gv (.value argj) with
        | error e => rw [hassign] at h; exact absurd h (by simp)
        | ok p =>
          obtain ⟨stA, emitted⟩ := p
          rw [hassign] at h
          simp only [exceptBind_ok] at h
          cases hrec : legalizeStreamBlockInsts fuel stA gv rest with
          | error e => rw [hrec] at h; exact absurd h (by simp)
          | ok p2 =>
            obtain ⟨stR, rest2⟩ := p2
            rw [hrec] at h
            simp only [exceptBind_ok, Except.ok.injEq, Prod.mk.injEq] at h
            obtain ⟨-, hl⟩ := h
            rcases List.mem_cons.mp hii with rfl | hii2
            · obtain rfl := Option.some.inj (hargj.symm.trans harg)
              exact ⟨st, stA, emitted, [], rest2, hassign,
                by rw [← hl]; simp⟩
            · obtain ⟨stA', stB', em', pre', post', hassign', hsplit⟩ :=
                ihl stA stR rest2 hrec ii hii2 hev arg harg
              exact ⟨stA', stB', em', emitted ++ jj :: pre', post',
                hassign', by rw [← hl, hsplit]; simp⟩
    · simp only [legalizeStreamBlockInsts, hevj, Bool.false_eq_true,
        if_false] at h
      cases hrec : legalizeStreamBlockInsts fuel st gv rest with
      | error e => rw [hrec] at h; exact absurd h (by simp)
      | ok p =>
        obtain ⟨stR, rest2⟩ := p
        rw [hrec] at h
        simp only [exceptBind_ok, Except.ok.injEq, Prod.mk.injEq] at h
        obtain ⟨-, hl⟩ := h
        rcases List.mem_cons.mp hii with rfl | hii2
        · rw [hev] at hevj
          exact absurd rfl hevj
        · obtain ⟨stA', stB', em', pre', post', hassign', hsplit⟩ :=
            ihl st stR rest2 hrec ii hii2 hev arg harg
          exact ⟨stA', stB', em', jj :: pre', post', hassign',
            by rw [← hl, hsplit]; simp⟩

/-- The EmitVertex scan over all blocks keeps the block count and puts
an assign immediately before each EmitVertex call of each block. -/
theorem legalizeStreamBlocks_emit (fuel : Nat) (gv : ScalarizedVal) :
    ∀ (bs : List Block) (st st2 : St) (bs' : List Block),
      legalizeStreamBlocks fuel st gv bs = .ok (st2, bs') →
      bs'.length = bs.length ∧
      ∀ j (hj : j < bs.length) (hj' : j < bs'.length),
        ∀ ii ∈ (bs.get ⟨j, hj⟩).insts, isEmitVertexCall ii = true →
        ∀ arg, ii.getOperand 2 = some arg →
        ∃ (stA stB : St) (emitted pre post : List Inst),
          assign fuel stA gv (.value arg) = .ok (stB, emitted) ∧
          (bs'.get ⟨j, hj'⟩).insts = pre ++ emitted ++ ii :: post := by
  intro bs
  induction bs with
  | nil =>
    intro st st2 bs' h
    simp only [legalizeStreamBlocks, Except.ok.injEq, Prod.mk.injEq] at h
    obtain ⟨-, hl⟩ := h
    rw [← hl]
    refine ⟨rfl, ?_⟩
    intro j hj
    exact absurd hj (by simp)
  | cons b rest ihb =>
    intro st st2 bs' h
    simp only [legalizeStreamBlocks] at h
    cases hbi : legalizeStreamBlockInsts fuel st gv b.insts with
    | error e => rw [hbi] at h; exact absurd h (by simp)
    | ok p =>
      obtain ⟨stb, insts2⟩ := p
      rw [hbi] at h
      simp only [exceptBind_ok] at h
      cases hrec : legalizeStreamBlocks fuel stb gv rest with
      | error e => rw [hrec] at h; exact absurd h (by simp)
      | ok p2 =>
        obtain ⟨stR, rest2⟩ := p2
        rw [hrec] at h
        simp only [exceptBind_ok, Except.ok.injEq, Prod.mk.injEq] at h
        obtain ⟨-, hl⟩ := h
        rw [← hl]
        obtain ⟨hlen, hper⟩ := ihb stb stR rest2 hrec
        refine ⟨by simp [hlen], fun j hj hj' => ?_⟩
        cases j with
        | zero =>
          intro ii hii hev arg harg
          exact legalizeStreamBlockInsts_emit fuel gv b.insts st stb insts2
            hbi ii hii hev arg harg
        | succ jj =>
          intro ii hii hev arg harg
          exact hper jj (by simpa using hj) (by simpa using hj') ii hii hev
            arg harg

/-- After replaceUsesWith, every operand edge that carries the old id
has been redirected to the replacement instruction. -/
theorem replaceUsesWith_operands (f : IRFunc) (oldId : Nat)
    (newInst : Inst) :
    ∀ b' ∈ (replaceUsesWith f oldId newInst).blocks, ∀ i' ∈ b'.insts,
      ∀ o ∈ i'.operands, o.id = oldId → o = newInst := by
  intro b' hb' i' hi' o ho hoid
  simp only [replaceUsesWith, List.mem_map] at hb'
  obtain ⟨b0, hb0, rfl⟩ := hb'
  simp only [List.mem_map] at hi'
  obtain ⟨i0, hi0, rfl⟩ := hi'
  cases i0 with
  | mk id o0p ty operands =>
    simp only [replaceOperand, Inst.operands, List.mem_map] at ho
    obtain ⟨o0, ho0, rfl⟩ := ho
    by_cases h0 : o0.id = oldId
    · rw [if_pos h0]
    · rw [if_neg h0] at hoid
      exact absurd hoid h0

/-- C7: on a geometry-stream output parameter, the pass materializes
an output varying for the stream type, puts an assign from the call's
operand at index 2 into that varying immediately before every
EmitVertex call, and then replaces every remaining use of the stream
parameter with an undefined value of the parameter's type. -/
theorem stream_output_emitvertex (fuel : Nat)
    (ctx : GLSLLegalizationContext) (st st2 : St) (f f2 : IRFunc)
    (builder b2 : Builder) (pp : Inst) (pl : VarLayout)
    (valueType elemType : IRType)
    (hty : outTypeBaseValue pp.type = some valueType)
    (hse : streamOutputElem valueType = some elemType)
    (hok : legalizeEntryPointParameterForGLSL fuel ctx st f builder pp pl
      = .ok (st2, f2, b2)) :
    ∃ (stV stB : St) (gv : ScalarizedVal) (blocks2 : List Block)
      (undef : Inst),
      createGLSLGlobalVaryings ctx st valueType pl .varyingOutput ctx.stage
        = .ok (stV, gv) ∧
      legalizeStreamBlocks fuel stV gv f.blocks = .ok (stB, blocks2) ∧
      blocks2.length = f.blocks.length ∧
      (∀ j (hj : j < f.blocks.length) (hj' : j < blocks2.length),
        ∀ ii ∈ (f.blocks.get ⟨j, hj⟩).insts, isEmitVertexCall ii = true →
        ∀ arg, ii.getOperand 2 = some arg →
        ∃ (stA stB' : St) (emitted pre post : List Inst),
          assign fuel stA gv (.value arg) = .ok (stB', emitted) ∧
          (blocks2.get ⟨j, hj'⟩).insts = pre ++ emitted ++ ii :: post) ∧
      undef.op = .undefined ∧ undef.type = pp.type ∧
      f2 = replaceUsesWith
        (builderInsert { f with blocks := blocks2 } ⟨0, 0⟩ [undef]).1
        pp.id undef ∧
      ∀ b' ∈ f2.blocks, ∀ i' ∈ b'.insts, ∀ o ∈ i'.operands,
        o.id = pp.id → o = undef := by
  unfold legalizeEntryPointParameterForGLSL at hok
  simp only [hty, hse] at hok
  unfold legalizeStreamOutParam at hok
  cases hcv : createGLSLGlobalVaryings ctx st valueType pl .varyingOutput
    ctx.stage with
  | error er => rw [hcv] at hok; exact absurd hok (by simp)
  | ok p =>
    obtain ⟨stV, gv⟩ := p
    rw [hcv] at hok
    simp only [exceptBind_ok] at hok
    cases hsb : legalizeStreamBlocks fuel stV gv f.blocks with
    | error er => rw [hsb] at hok; exact absurd hok (by simp)
    | ok p2 =>
      obtain ⟨stB, blocks2⟩ := p2
      rw [hsb] at hok
      simp only [exceptBind_ok, freshInst, Except.ok.injEq,
        Prod.mk.injEq] at hok
      obtain ⟨-, hf2, -⟩ := hok
      obtain ⟨hlen, hemit⟩ := legalizeStreamBlocks_emit fuel gv f.blocks
        stV stB blocks2 hsb
      refine ⟨stV, stB, gv, blocks2, .mk stB.fresh .undefined pp.type [],
        rfl, hsb, hlen, hemit, rfl, rfl, hf2.symm, ?_⟩
      rw [← hf2]
      exact replaceUsesWith_operands _ pp.id _

/-- The out-parameter return scan keeps the block count and, in every
block whose terminator is a return, has emitted the assign from the
local into the output varying immediately before that terminator. -/
theorem legalizeOutReturns_shape (fuel : Nat) (gv lv : ScalarizedVal) :
    ∀ (bs : List Block) (st st2 : St) (bs' : List Block),
      legalizeOutReturns fuel st gv lv bs = .ok (st2, bs') →
      bs'.length = bs.length ∧
      ∀ j (hj : j < bs.length) (hj' : j < bs'.length) (t : Inst),
        (bs.get ⟨j, hj⟩).insts.getLast? = some t →
        isReturnOp t.op = true →
        ∃ (stA stB : St) (emitted : List Inst),
          assign fuel stA gv lv = .ok (stB, emitted) ∧
          (bs'.get ⟨j, hj'⟩).insts =
            (bs.get ⟨j, hj⟩).insts.dropLast ++ emitted ++ [t] := by
  intro bs
  induction bs with
  | nil =>
    intro st st2 bs' h
    simp only [legalizeOutReturns, Except.ok.injEq, Prod.mk.injEq] at h
    obtain ⟨-, hl⟩ := h
    rw [← hl]
    refine ⟨rfl, ?_⟩
    intro j hj
    exact absurd hj (by simp)
  | cons b rest ihb =>
    intro st st2 bs' h
    rw [legalizeOutReturns] at h
    cases hlast : b.insts.getLast? with
    | none =>
      simp only [hlast] at h
      cases hrec : legalizeOutReturns fuel st gv lv rest with
      | error e => rw [hrec] at h; exact absurd h (by simp)
      | ok p =>
        obtain ⟨stR, rest2⟩ := p
        rw [hrec] at h
        simp only [exceptBind_ok, Except.ok.injEq, Prod.mk.injEq] at h
        obtain ⟨-, hl⟩ := h
        rw [← hl]
        obtain ⟨hlen, hper⟩ := ihb st stR rest2 hrec
        refine ⟨by simp [hlen], fun j hj hj' => ?_⟩
        cases j with
        | zero =>
          intro t ht
          rw [List.get] at ht
          rw [hlast] at ht
          exact absurd ht (by simp)
        | succ jj =>
          intro t ht hro
          exact hper jj (by simpa using hj) (by simpa using hj') t ht hro
    | some t0 =>
      simp only [hlast] at h
      by_cases hro0 : isReturnOp t0.op = true
      · rw [if_pos hro0] at h
        cases hassign : assign fuel st gv lv with
        | error e => rw [hassign] at h; exact absurd h (by simp)
        | ok p =>
          obtain ⟨stA, emitted⟩ := p
          rw [hassign] at h
          simp only [exceptBind_ok] at h
          cases hrec : legalizeOutReturns fuel stA gv lv rest with
          | error e => rw [hrec] at h; exact absurd h (by simp)
          | ok p2 =>
            obtain ⟨stR, rest2⟩ := p2
            rw [hrec] at h
            simp only [exceptBind_ok, Except.ok.injEq, Prod.mk.injEq] at h
            obtain ⟨-, hl⟩ := h
            rw [← hl]
            obtain ⟨hlen, hper⟩ := ihb stA stR rest2 hrec
            refine ⟨by simp [hlen], fun j hj hj' => ?_⟩
            cases j with
            | zero =>
              intro t ht hro
              obtain rfl := Option.some.inj (hlast.symm.trans ht)
              exact ⟨st, stA, emitted, hassign, rfl⟩
            | succ jj =>
              intro t ht hro
              exact hper jj (by simpa using hj) (by simpa using hj') t ht
                hro
      · rw [if_neg hro0] at h
        cases hrec : legalizeOutReturns fuel st gv lv rest with
        | error e => rw [hrec] at h; exact absurd h (by simp)
        | ok p =>
          obtain ⟨stR, rest2⟩ := p
          rw [hrec] at h
          simp only [exceptBind_ok, Except.ok.injEq, Prod.mk.injEq] at h
          obtain ⟨-, hl⟩ := h
          rw [← hl]
          obtain ⟨hlen, hper⟩ := ihb st stR rest2 hrec
          refine ⟨by simp [hlen], fun j hj hj' => ?_⟩
          cases j with
          | zero =>
            intro t ht hro
            obtain rfl := Option.some.inj (hlast.symm.trans ht)
            exact absurd hro hro0
          | succ jj =>
            intro t ht hro
            exact hper jj (by simpa using hj) (by simpa using hj') t ht hro

/-- C6: on an ordinary out or inout parameter, the pass allocates a
local variable of the pointee type at the main builder's point (for
inout, followed there by an assign of a freshly materialized input
varying into the local), redirects every use of the parameter to the
local, and then, in every block whose terminator is a return, emits an
assign of the local's address into the output varying immediately
before the terminator, returning the main builder untouched by that
scan. -/
theorem out_inout_param_legalization (fuel : Nat)
    (ctx : GLSLLegalizationContext) (st st2 : St) (f f2 : IRFunc)
    (builder b2 : Builder) (pp : Inst) (pl : VarLayout)
    (valueType : IRType)
    (hty : outTypeBaseValue pp.type = some valueType)
    (hse : streamOutputElem valueType = Option.none)
    (hrt : isRayTracingStage ctx.stage = false)
    (hok : legalizeEntryPointParameterForGLSL fuel ctx st f builder pp pl
      = .ok (st2, f2, b2)) :
    ∃ (localVariable : Inst) (f1 : IRFunc) (builder1 : Builder)
      (stPre stO stR : St) (gov : ScalarizedVal) (blocksR : List Block),
      localVariable.op = .varOp ∧
      localVariable.type = .ptrT valueType ∧
      (isInOutType pp.type = true →
        ∃ (stI stA : St) (giv : ScalarizedVal) (emittedIn : List Inst),
          createGLSLGlobalVaryings ctx { st with fresh := st.fresh + 1 }
            valueType pl .varyingInput ctx.stage = .ok (stI, giv) ∧
          assign fuel stI (.address localVariable) giv
            = .ok (stA, emittedIn) ∧
          f1 = (builderInsert (builderInsert f builder [localVariable]).1
            (builderInsert f builder [localVariable]).2 emittedIn).1 ∧
          builder1 = (builderInsert
            (builderInsert f builder [localVariable]).1
            (builderInsert f builder [localVariable]).2 emittedIn).2 ∧
          stPre = stA) ∧
      (isInOutType pp.type = false →
        f1 = (builderInsert f builder [localVariable]).1 ∧
        builder1 = (builderInsert f builder [localVariable]).2 ∧
        stPre = { st with fresh := st.fresh + 1 }) ∧
      (∀ b' ∈ (replaceUsesWith f1 pp.id localVariable).blocks,
        ∀ i' ∈ b'.insts, ∀ o ∈ i'.operands,
          o.id = pp.id → o = localVariable) ∧
      createGLSLGlobalVaryings ctx stPre valueType pl .varyingOutput
        ctx.stage = .ok (stO, gov) ∧
      legalizeOutReturns fuel stO gov (.address localVariable)
        (replaceUsesWith f1 pp.id localVariable).blocks
        = .ok (stR, blocksR) ∧
      f2 = { replaceUsesWith f1 pp.id localVariable with
        blocks := blocksR } ∧
      st2 = stR ∧
      b2 = builder1 ∧
      blocksR.length
        = (replaceUsesWith f1 pp.id localVariable).blocks.length ∧
      ∀ j (hj : j < (replaceUsesWith f1 pp.id
          localVariable).blocks.length)
        (hj' : j < blocksR.length) (t : Inst),
        ((replaceUsesWith f1 pp.id localVariable).blocks.get
          ⟨j, hj⟩).insts.getLast? = some t →
        isReturnOp t.op = true →
        ∃ (stA' stB' : St) (emitted : List Inst),
          assign fuel stA' gov (.address localVariable)
            = .ok (stB', emitted) ∧
          (blocksR.get ⟨j, hj'⟩).insts =
            ((replaceUsesWith f1 pp.id localVariable).blocks.get
              ⟨j, hj⟩).insts.dropLast ++ emitted ++ [t] := by
  unfold legalizeEntryPointParameterForGLSL at hok
  simp only [hty, hse, hrt, Bool.false_eq_true, if_false] at hok
  unfold legalizeOutInOutParam at hok
  simp only [freshInst, exceptBind_ok] at hok
  by_cases hio : isInOutType pp.type = true
  · simp only [hio, if_true] at hok
    cases hcvi : createGLSLGlobalVaryings ctx
      { st with fresh := st.fresh + 1 } valueType pl
      .varyingInput ctx.stage with
    | error er => rw [hcvi] at hok; exact absurd hok (by simp)
    | ok p =>
      obtain ⟨stI, giv⟩ := p
      rw [hcvi] at hok
      simp only [exceptBind_ok] at hok
      cases hassign : assign fuel stI
        (.address (.mk st.fresh .varOp (.ptrT valueType) [])) giv with
      | error er => rw [hassign] at hok; exact absurd hok (by simp)
      | ok p2 =>
        obtain ⟨stA, emittedIn⟩ := p2
        rw [hassign] at hok
        simp only [exceptBind_ok] at hok
        cases hcvo : createGLSLGlobalVaryings ctx stA valueType pl
          .varyingOutput ctx.stage with
        | error er => rw [hcvo] at hok; exact absurd hok (by simp)
        | ok p3 =>
          obtain ⟨stO, gov⟩ := p3
          rw [hcvo] at hok
          simp only [exceptBind_ok] at hok
          cases hor : legalizeOutReturns fuel stO gov
            (.address (.mk st.fresh .varOp (.ptrT valueType) []))
            (replaceUsesWith
              (builderInsert
                (builderInsert f builder
                  [.mk st.fresh .varOp (.ptrT valueType) []]).1
                (builderInsert f builder
                  [.mk st.fresh .varOp (.ptrT valueType) []]).2
                emittedIn).1
              pp.id (.mk st.fresh .varOp (.ptrT valueType) [])).blocks
            with
          | error er => rw [hor] at hok; exact absurd hok (by simp)
          | ok p4 =>
            obtain ⟨stR, blocksR⟩ := p4
            rw [hor] at hok
            simp only [exceptBind_ok, Except.ok.injEq,
              Prod.mk.injEq] at hok
            obtain ⟨hst, hf2, hb2⟩ := hok
            obtain ⟨hlen, hper⟩ := legalizeOutReturns_shape fuel gov
              (.address (.mk st.fresh .varOp (.ptrT valueType) [])) _
              stO stR blocksR hor
            refine ⟨.mk st.fresh .varOp (.ptrT valueType) [],
              (builderInsert
                (builderInsert f builder
                  [.mk st.fresh .varOp (.ptrT valueType) []]).1
                (builderInsert f builder
                  [.mk st.fresh .varOp (.ptrT valueType) []]).2
                emittedIn).1,
              (builderInsert
                (builderInsert f builder
                  [.mk st.fresh .varOp (.ptrT valueType) []]).1
                (builderInsert f builder
                  [.mk st.fresh .varOp (.ptrT valueType) []]).2
                emittedIn).2,
              stA, stO, stR, gov, blocksR,
              rfl, rfl,
              fun _ => ⟨stI, stA, giv, emittedIn, rfl, hassign, rfl, rfl,
                rfl⟩,
              fun hfalse => absurd (hio.symm.trans hfalse) (by simp),
              replaceUsesWith_operands _ pp.id _,
              hcvo, hor, hf2.symm, hst.symm, hb2.symm, hlen, hper⟩
  · simp only [hio, Bool.false_eq_true, if_false, exceptBind_ok] at hok
    cases hcvo : createGLSLGlobalVaryings ctx
      { st with fresh := st.fresh + 1 } valueType pl
      .varyingOutput ctx.stage with
    | error er => rw [hcvo] at hok; exact absurd hok (by simp)
    | ok p3 =>
      obtain ⟨stO, gov⟩ := p3
      rw [hcvo] at hok
      simp only [exceptBind_ok] at hok
      cases hor : legalizeOutReturns fuel stO gov
        (.address (.mk st.fresh .varOp (.ptrT valueType) []))
        (replaceUsesWith
          (builderInsert f builder
            [.mk st.fresh .varOp (.ptrT valueType) []]).1
          pp.id (.mk st.fresh .varOp (.ptrT valueType) [])).blocks
        with
      | error er => rw [hor] at hok; exact absurd hok (by simp)
      | ok p4 =>
        obtain ⟨stR, blocksR⟩ := p4
        rw [hor] at hok
        simp only [exceptBind_ok, Except.ok.injEq, Prod.mk.injEq] at hok
        obtain ⟨hst, hf2, hb2⟩ := hok
        obtain ⟨hlen, hper⟩ := legalizeOutReturns_shape fuel gov
          (.address (.mk st.fresh .varOp (.ptrT valueType) [])) _
          stO stR blocksR hor
        have hiof : isInOutType pp.type = false := by
          cases hval : isInOutType pp.type
          · rfl
          · exact absurd hval hio
        refine ⟨.mk st.fresh .varOp (.ptrT valueType) [],
          (builderInsert f builder
            [.mk st.fresh .varOp (.ptrT valueType) []]).1,
          (builderInsert f builder
            [.mk st.fresh .varOp (.ptrT valueType) []]).2,
          { st with fresh := st.fresh + 1 }, stO, stR, gov, blocksR,
          rfl, rfl,
          fun htrue => absurd (hiof.symm.trans htrue) (by simp),
          fun _ => ⟨rfl, rfl, rfl⟩,
          replaceUsesWith_operands _ pp.id _,
          hcvo, hor, hf2.symm, hst.symm, hb2.symm, hlen, hper⟩

/-- C8: the system-value resolver returns nil for an empty semantic
without diagnosing; for a non-empty semantic outside its table it
diagnoses unknown-system-value-semantic at the variable's location and
returns nil (the caller then treats the parameter as an ordinary
varying); and for sv_target, recognized as needing no built-in
binding, it returns the nil skip result with no diagnostic. -/
theorem getGLSLSystemValueInfo_empty_unknown_target
    (ctx : GLSLLegalizationContext) (st : St) (vl : VarLayout)
    (kind : LayoutResourceKind) (stage : Stage) :
    (vl.core.systemValueSemantic.length = 0 →
      getGLSLSystemValueInfo ctx st vl kind stage = (st, Option.none)) ∧
    (vl.core.systemValueSemantic.length ≠ 0 →
      strToLower vl.core.systemValueSemantic ∉ recognizedSemanticNames →
      getGLSLSystemValueInfo ctx st vl kind stage =
        (diagnose st vl.core.varDeclLoc .unknownSystemValueSemantic,
          Option.none)) ∧
    (vl.core.systemValueSemantic.length ≠ 0 →
      strToLower vl.core.systemValueSemantic = "sv_target" →
      getGLSLSystemValueInfo ctx st vl kind stage = (st, Option.none)) := by
  refine ⟨fun h0 => ?_, fun h0 hmem => ?_, fun h0 htgt => ?_⟩
  · simp [getGLSLSystemValueInfo, getGLSLSystemValueInfoCore, h0,
      applyEffects]
  · simp only [recognizedSemanticNames, List.mem_cons, List.not_mem_nil,
      or_false, not_or] at hmem
    obtain ⟨n1, n2, n3, n4, n5, n6, n7, n8, n9, n10, n11, n12, n13, n14,
      n15, n16, n17, n18, n19, n20, n21, n22, n23, n24, n25, n26, n27⟩ := hmem
    simp [getGLSLSystemValueInfo, getGLSLSystemValueInfoCore, h0, n1, n2,
      n3, n4, n5, n6, n7, n8, n9, n10, n11, n12, n13, n14, n15, n16, n17,
      n18, n19, n20, n21, n22, n23, n24, n25, n26, n27, applyEffects,
      applyEffect]
  · simp [getGLSLSystemValueInfo, getGLSLSystemValueInfoCore, h0, htgt,
      applyEffects]

/-- Witness for C8 at concrete inputs: an empty semantic, an unknown
semantic and SV_Target. -/
theorem getGLSLSystemValueInfo_empty_unknown_target_witness :
    (getGLSLSystemValueInfo ⟨.vertex⟩ witnessSt (witnessLeafVL "")
        .varyingInput .vertex = (witnessSt, Option.none)) ∧
    (getGLSLSystemValueInfo ⟨.vertex⟩ witnessSt (witnessLeafVL "BOGUS")
        .varyingInput .vertex =
      (diagnose witnessSt 7 .unknownSystemValueSemantic, Option.none)) ∧
    (getGLSLSystemValueInfo ⟨.vertex⟩ witnessSt (witnessLeafVL "SV_Target")
        .varyingInput .vertex = (witnessSt, Option.none)) :=
  ⟨(getGLSLSystemValueInfo_empty_unknown_target ⟨.vertex⟩ witnessSt
      (witnessLeafVL "") .varyingInput .vertex).1 (by decide),
   (getGLSLSystemValueInfo_empty_unknown_target ⟨.vertex⟩ witnessSt
      (witnessLeafVL "BOGUS") .varyingInput .vertex).2.1 (by decide)
      (by decide),
   (getGLSLSystemValueInfo_empty_unknown_target ⟨.vertex⟩ witnessSt
      (witnessLeafVL "SV_Target") .varyingInput .vertex).2.2 (by decide)
      (by decide)⟩

/-- Resolver side effects only touch the extension tracker and the
diagnostic sink: the fresh-id counter, global parameters and
decorations are untouched. -/
theorem applyEffects_preserves (es : List TrackerEffect) (st : St) :
    (applyEffects st es).globalParams = st.globalParams ∧
    (applyEffects st es).fresh = st.fresh ∧
    (applyEffects st es).decorations = st.decorations := by
  induction es generalizing st with
  | nil => exact ⟨rfl, rfl, rfl⟩
  | cons e rest ih =>
    have h := ih (applyEffect st e)
    cases e <;>
      simpa [applyEffects, applyEffect, requireGLSLExtension,
        requireGLSLVersion, diagnose] using h

/-- The system-value resolver only touches the extension tracker and
the diagnostic sink. -/
theorem getGLSLSystemValueInfo_preserves (ctx : GLSLLegalizationContext)
    (st : St) (vl : VarLayout) (kind : LayoutResourceKind) (stage : Stage) :
    (getGLSLSystemValueInfo ctx st vl kind stage).1.globalParams
        = st.globalParams ∧
    (getGLSLSystemValueInfo ctx st vl kind stage).1.fresh = st.fresh ∧
    (getGLSLSystemValueInfo ctx st vl kind stage).1.decorations
        = st.decorations := by
  unfold getGLSLSystemValueInfo
  exact applyEffects_preserves (getGLSLSystemValueInfoCore ctx vl kind stage).1 st

/-- Adding a decoration does not change the created globals. -/
@[simp] theorem addDecoration_globalParams (st : St) (i : Nat)
    (d : Decoration) : (addDecoration st i d).globalParams = st.globalParams :=
  rfl

/-- addGlobalParam appends exactly the created global. -/
theorem addGlobalParam_snd_globalParams (st : St) (t : IRType) :
    (addGlobalParam st t).2.globalParams
      = st.globalParams ++ [(addGlobalParam st t).1] := rfl

/-- C5 counterexample: for the input leaf SV_InstanceID declared as
uint the materializer does not return a Value of the global parameter
(the required type int differs, so the result is a TypeAdapter). -/
theorem createSimpleGLSLGlobalVarying_not_value_counterexample :
    (createSimpleGLSLGlobalVarying ⟨.vertex⟩ witnessSt (.basic .uintT)
        (witnessLeafVL "sv_instanceid") (.basicTL 0 [⟨.varyingInput, 0, 1⟩])
        .varyingInput .vertex 0 []).2.isValue = false := rfl

/-- C5 (amended): for every leaf varying, the materializer creates one
global parameter, whose type is wrapped in the output-pointer type
exactly when the kind is VaryingOutput, and returns an Address of that
global for outputs and a Value of it for inputs — except that when the
resolved system value carries a required type different from the
user-declared type, that Address or Value is wrapped in a
TypeAdapter. -/
theorem createSimpleGLSLGlobalVarying_flavor (ctx : GLSLLegalizationContext)
    (st : St) (inType : IRType) (inVarLayout : VarLayout)
    (inTypeLayout : TypeLayout) (kind : LayoutResourceKind) (stage : Stage)
    (bindingIndex : Nat) (declarator : List Nat) :
    ∃ (g : Inst) (st' : St) (leafType : IRType),
      createSimpleGLSLGlobalVarying ctx st inType inVarLayout inTypeLayout
          kind stage bindingIndex declarator
        = (st',
           match (getGLSLSystemValueInfo ctx st inVarLayout kind stage).2 with
           | some svi =>
             (match svi.requiredType with
              | some rt =>
                if isTypeEqual rt inType then
                  (if kind = .varyingOutput then ScalarizedVal.address g
                   else ScalarizedVal.value g)
                else
                  .typeAdapter
                    (if kind = .varyingOutput then ScalarizedVal.address g
                     else ScalarizedVal.value g) rt inType
              | Option.none =>
                (if kind = .varyingOutput then ScalarizedVal.address g
                 else ScalarizedVal.value g))
           | Option.none =>
             (if kind = .varyingOutput then ScalarizedVal.address g
              else ScalarizedVal.value g)) ∧
      g.op = .globalParam ∧
      g.type = (if kind = .varyingOutput then .outT leafType else leafType) ∧
      st'.globalParams = st.globalParams ++ [g] := by
  obtain ⟨hgp, -, -⟩ :=
    getGLSLSystemValueInfo_preserves ctx st inVarLayout kind stage
  simp only [createSimpleGLSLGlobalVarying]
  cases h : (getGLSLSystemValueInfo ctx st inVarLayout kind stage).2 with
  | none =>
    exact ⟨_, _, _, rfl, rfl, rfl,
      by simp [hgp, addGlobalParam_snd_globalParams]⟩
  | some svi =>
    refine ⟨_, _, _, rfl, rfl, rfl, ?_⟩
    cases hrt : svi.requiredType <;> cases hoa : svi.outerArrayName <;>
      simp [hrt, hoa, hgp, addGlobalParam_snd_globalParams]

/-- The resolver on an empty semantic: nil, no effect. -/
theorem getGLSLSystemValueInfo_of_empty (ctx : GLSLLegalizationContext)
    (st : St) (vl : VarLayout) (kind : LayoutResourceKind) (stage : Stage)
    (hsem : vl.core.systemValueSemantic = "") :
    getGLSLSystemValueInfo ctx st vl kind stage = (st, Option.none) := by
  simp [getGLSLSystemValueInfo, getGLSLSystemValueInfoCore, hsem,
    applyEffects]

/-- Normal form of the leaf materializer when the variable carries no
system-value semantic: one fresh global parameter of the declarator-
wrapped type (output-pointer wrapped for outputs), carrying the fresh
var layout as its layout decoration, returned as an Address for
outputs and a Value for inputs. -/
theorem createSimpleGLSLGlobalVarying_empty (ctx : GLSLLegalizationContext)
    (st : St) (inType : IRType) (inVarLayout : VarLayout)
    (inTypeLayout : TypeLayout) (kind : LayoutResourceKind) (stage : Stage)
    (bindingIndex : Nat) (declarator : List Nat)
    (hsem : inVarLayout.core.systemValueSemantic = "") :
    createSimpleGLSLGlobalVarying ctx st inType inVarLayout inTypeLayout
        kind stage bindingIndex declarator
      = (⟨st.fresh + 1,
          st.globalParams ++
            [.mk st.fresh .globalParam
              (if kind = LayoutResourceKind.varyingOutput then
                .outT (List.foldl (wrapDeclarator inTypeLayout kind)
                  (inType, inTypeLayout) declarator).1
               else (List.foldl (wrapDeclarator inTypeLayout kind)
                  (inType, inTypeLayout) declarator).1) []],
          st.decorations ++
            [(st.fresh, .layoutDec (.varL
              { core := { inVarLayout.core with
                  resInfos := [⟨kind, bindingIndex, 0⟩] }
                typeLayout := (List.foldl (wrapDeclarator inTypeLayout kind)
                  (inType, inTypeLayout) declarator).2 }))],
          st.extensions, st.versions, st.diags⟩,
         if kind = LayoutResourceKind.varyingOutput then
           ScalarizedVal.address (.mk st.fresh .globalParam
             (.outT (List.foldl (wrapDeclarator inTypeLayout kind)
               (inType, inTypeLayout) declarator).1) [])
         else
           ScalarizedVal.value (.mk st.fresh .globalParam
             (List.foldl (wrapDeclarator inTypeLayout kind)
               (inType, inTypeLayout) declarator).1 [])) := by
  simp only [createSimpleGLSLGlobalVarying,
    getGLSLSystemValueInfo_of_empty ctx st inVarLayout kind stage hsem,
    addGlobalParam, freshInst, addDecoration]
  split_ifs with h <;> rfl

/-- C2: for a parameter of type S[N] where S is a struct with two
leaf fields of basic types, the varying materializer creates exactly
one global parameter per leaf field, each shaped as the field type
wrapped in the outer array (b1[N] and b2[N]) and never one of the
aggregate type S[N]; the ScalarizedVal it returns is a Tuple whose
logical type is S[N] in which each element is the legalized array leaf
for the corresponding field. -/
theorem createGLSLGlobalVaryings_soa (ctx : GLSLLegalizationContext)
    (st : St) (stage : Stage) (tag n1 n2 : Nat) (b1 b2 : BaseType) (N : Nat)
    (core c1 c2 : VarLayoutCore) (tl1 tl2 : TypeLayout)
    (rules : Nat) (ri ris : List ResInfo)
    (hsem1 : c1.systemValueSemantic = "")
    (hsem2 : c2.systemValueSemantic = "") :
    ∃ (st' : St) (g1 g2 : Inst),
      createGLSLGlobalVaryings ctx st
          (.arrayT (.structT tag [(n1, .basic b1), (n2, .basic b2)]) N)
          { core := core
            typeLayout := .arrayTL rules ri
              (.structTL rules ris [(c1, tl1), (c2, tl2)]) }
          .varyingInput stage
        = .ok (st', .tuple
            (.arrayT (.structT tag [(n1, .basic b1), (n2, .basic b2)]) N)
            [(n1, .value g1), (n2, .value g2)]) ∧
      g1.op = .globalParam ∧ g2.op = .globalParam ∧
      g1.type = .arrayT (.basic b1) N ∧
      g2.type = .arrayT (.basic b2) N ∧
      st'.globalParams = st.globalParams ++ [g1, g2] ∧
      (∀ g ∈ [g1, g2], g.type ≠
        .arrayT (.structT tag [(n1, .basic b1), (n2, .basic b2)]) N) := by
  simp only [createGLSLGlobalVaryings, createGLSLGlobalVaryingsImpl,
    createGLSLGlobalVaryingsFields, createSimpleGLSLGlobalVarying_empty,
    hsem1, hsem2, wrapDeclarator, List.foldl, ScalarizedVal.isNone,
    exceptBind_ok]
  exact ⟨_, _, _, rfl, rfl, rfl, rfl, rfl, by simp, by simp [Inst.type]⟩

/-- Witness for C2: Bundle[3] with fields float and uint. -/
theorem createGLSLGlobalVaryings_soa_witness :
    ∃ (st' : St) (g1 g2 : Inst),
      createGLSLGlobalVaryings ⟨.vertex⟩ witnessSt
          (.arrayT (.structT 5 [(0, .basic .floatT), (1, .basic .uintT)]) 3)
          { core := witnessCore ""
            typeLayout := .arrayTL 0 [⟨.varyingInput, 0, 3⟩]
              (.structTL 0 [⟨.varyingInput, 0, 2⟩]
                [(witnessCore "", .basicTL 0 [⟨.varyingInput, 0, 1⟩]),
                 (witnessCore "", .basicTL 0 [⟨.varyingInput, 1, 1⟩])]) }
          .varyingInput .vertex
        = .ok (st', .tuple
            (.arrayT (.structT 5 [(0, .basic .floatT), (1, .basic .uintT)]) 3)
            [(0, .value g1), (1, .value g2)]) ∧
      g1.op = .globalParam ∧ g2.op = .globalParam ∧
      g1.type = .arrayT (.basic .floatT) 3 ∧
      g2.type = .arrayT (.basic .uintT) 3 ∧
      st'.globalParams = witnessSt.globalParams ++ [g1, g2] ∧
      (∀ g ∈ [g1, g2], g.type ≠
        .arrayT (.structT 5 [(0, .basic .floatT), (1, .basic .uintT)]) 3) :=
  createGLSLGlobalVaryings_soa ⟨.vertex⟩ witnessSt .vertex 5 0 1 .floatT
    .uintT 3 (witnessCore "") (witnessCore "") (witnessCore "")
    (.basicTL 0 [⟨.varyingInput, 0, 1⟩]) (.basicTL 0 [⟨.varyingInput, 1, 1⟩])
    0 [⟨.varyingInput, 0, 3⟩] [⟨.varyingInput, 0, 2⟩] rfl rfl

/-- C9: running the pass on an entry point that is already legalized
(void return type, zero parameters) is a no-op: it returns before
creating any global parameter, emitting any instruction or touching
the function or the module state. -/
theorem legalizeEntryPointForGLSL_noop (fuel : Nat) (st : St) (f : IRFunc)
    (epl : EntryPointLayout)
    (hlayout : findLayoutDecoration f.decorations = some (.entryPointL epl))
    (huses : f.hasUses = false)
    (hvoid : isVoidType f.resultType = true)
    (hparams : f.paramCount = 0) :
    legalizeEntryPointForGLSL fuel st f = .ok (st, f) := by
  simp [legalizeEntryPointForGLSL, hlayout, huses, hvoid, hparams]

/-- Witness for C9: the trivial entry point is returned untouched. -/
theorem legalizeEntryPointForGLSL_noop_witness :
    legalizeEntryPointForGLSL 5 witnessSt witnessTrivialFunc
      = .ok (witnessSt, witnessTrivialFunc) :=
  legalizeEntryPointForGLSL_noop 5 witnessSt witnessTrivialFunc
    ⟨.vertex, witnessLeafVL ""⟩ rfl rfl rfl rfl

/-- Whatever the parameter phase does, it ends by clearing the entry
block's parameter list and patching the function type to the nullary
void function type. -/
theorem legalizeEntryPointParams_signature (fuel : Nat)
    (ctx : GLSLLegalizationContext) (st st' : St) (f f' : IRFunc)
    (hok : legalizeEntryPointParams fuel ctx st f = .ok (st', f')) :
    f'.paramCount = 0 ∧ f'.fullType = .funcT [] .voidT := by
  unfold legalizeEntryPointParams at hok
  cases hb : f.blocks with
  | nil =>
    rw [hb] at hok
    simp only [exceptBind_ok] at hok
    cases hok
    exact ⟨by simp [IRFunc.paramCount, hb], rfl⟩
  | cons b bs =>
    rw [hb] at hok
    simp only [exceptBind_ok] at hok
    cases hpl : paramsLoop fuel ctx st f ⟨0, 0⟩ b.params with
    | error e => simp [hpl] at hok
    | ok r =>
      obtain ⟨stX, fX, bX⟩ := r
      simp only [hpl, exceptBind_ok] at hok
      cases hok
      refine ⟨?_, rfl⟩
      unfold clearFirstBlockParams
      cases hfb : fX.blocks with
      | nil => simp [IRFunc.paramCount, hfb]
      | cons fb fbs => simp [hfb, IRFunc.paramCount]

/-- C1: whenever the pass completes on a well-formed entry point (its
function type lists exactly the entry block's parameters), the
resulting function has zero parameters and its type has been replaced
by the nullary void function type. -/
theorem legalizeEntryPointForGLSL_signature (fuel : Nat) (st st' : St)
    (f f' : IRFunc) (ps : List IRType) (r : IRType)
    (hwf : f.fullType = .funcT ps r)
    (hlen : ps.length = f.paramCount)
    (hok : legalizeEntryPointForGLSL fuel st f = .ok (st', f')) :
    f'.paramCount = 0 ∧ f'.fullType = .funcT [] .voidT := by
  unfold legalizeEntryPointForGLSL at hok
  cases hld : findLayoutDecoration f.decorations with
  | none => rw [hld] at hok; exact absurd hok (by simp)
  | some payload =>
    rw [hld] at hok
    cases payload with
    | varL v => exact absurd hok (by simp)
    | entryPointL epl =>
      by_cases huses : f.hasUses = true
      · simp [huses] at hok
      · by_cases hvoid : isVoidType f.resultType = true
        · by_cases hp : f.paramCount = 0
          · simp [huses, hvoid, hp] at hok
            obtain ⟨h1, h2⟩ := hok
            subst h2
            refine ⟨hp, ?_⟩
            have hr : f.resultType = r := by
              simp [IRFunc.resultType, hwf]
            rw [hr] at hvoid
            cases r <;> simp [isVoidType] at hvoid
            rw [hwf]
            have hps : ps = [] := by
              cases ps with
              | nil => rfl
              | cons a l => rw [hp] at hlen; exact absurd hlen (by simp)
            rw [hps]
          · simp [huses, hvoid, hp] at hok
            exact legalizeEntryPointParams_signature fuel _ st st' f f' hok
        · simp [huses, hvoid] at hok
          cases hcv : createGLSLGlobalVaryings ⟨epl.stage⟩ st f.resultType
            epl.resultLayout .varyingOutput epl.stage with
          | error e => simp [hcv] at hok
          | ok p =>
            obtain ⟨st1, resultGlobal⟩ := p
            simp only [hcv] at hok
            cases hrb : rewriteReturnBlocks fuel st1 resultGlobal f.blocks with
            | error e => simp [hrb] at hok
            | ok p2 =>
              obtain ⟨st2, blocks2⟩ := p2
              simp only [hrb] at hok
              exact legalizeEntryPointParams_signature fuel _ st2 st' _ f' hok

/-- Witness for C1: the simple vertex-shader entry point. -/
theorem legalizeEntryPointForGLSL_signature_witness :
    ∃ (st' : St) (f' : IRFunc),
      legalizeEntryPointForGLSL 20 witnessSt
          (witnessFunc (.basic .floatT) 100) = .ok (st', f') ∧
      f'.paramCount = 0 ∧ f'.fullType = .funcT [] .voidT := by
  cases hok : legalizeEntryPointForGLSL 20 witnessSt
    (witnessFunc (.basic .floatT) 100) with
  | error e =>
    have hOk : exceptIsOk (legalizeEntryPointForGLSL 20 witnessSt
        (witnessFunc (.basic .floatT) 100)) = true := rfl
    rw [hok] at hOk
    exact absurd hOk (by simp [exceptIsOk])
  | ok p =>
    have h := legalizeEntryPointForGLSL_signature 20 witnessSt p.1
      (witnessFunc (.basic .floatT) 100) p.2 [.basic .floatT] .voidT rfl rfl
      (by rw [hok])
    exact ⟨p.1, p.2, by simp [hok], h.1, h.2⟩

/-- C10: a void-typed ordinary entry-point parameter has no legal
rewrite: the varying materializer yields the none flavor for void, the
none flavor reaches materializeValue's fatal unimplemented branch, and
so the ordinary-input parameter legalization aborts compilation with
that error. -/
theorem legalizeEntryPointParameterForGLSL_void_unimplemented
    (fuel : Nat) (ctx : GLSLLegalizationContext) (st : St) (f : IRFunc)
    (builder : Builder) (pp : Inst) (paramLayout : VarLayout)
    (hvoid : pp.type = .voidT)
    (hstage : isRayTracingStage ctx.stage = false) :
    createGLSLGlobalVaryings ctx st .voidT paramLayout .varyingInput
        ctx.stage = .ok (st, .none) ∧
    materializeValue (fuel + 1) st .none = .error "unimplemented" ∧
    legalizeEntryPointParameterForGLSL (fuel + 1) ctx st f builder pp
        paramLayout = .error "unimplemented" := by
  refine ⟨by simp [createGLSLGlobalVaryings, createGLSLGlobalVaryingsImpl],
    by simp [materializeValue], ?_⟩
  simp [legalizeEntryPointParameterForGLSL, hvoid, outTypeBaseValue, hstage,
    legalizeOrdinaryInParam, createGLSLGlobalVaryings,
    createGLSLGlobalVaryingsImpl, materializeValue]

/-- C4: when the resolved system value carries a required type
different from the user-declared type, the leaf materializer wraps its
result in a TypeAdapter whose actualType is the required type and
whose pretendType is the user type; a read through such an adapter
(materializeValue on an input leaf) emits exactly one conversion
instruction, a constructor from the actual to the pretend type; and a
write through it (assign into an output leaf) emits exactly one
conversion from the pretend to the actual type followed by the
store. -/
theorem typeAdapter_roundtrip (ctx : GLSLLegalizationContext)
    (st st1 st2 : St) (inVarLayout : VarLayout) (inTypeLayout : TypeLayout)
    (kind : LayoutResourceKind) (stage : Stage) (bindingIndex : Nat)
    (declarator : List Nat) (inType rt : IRType)
    (svi : GLSLSystemValueInfo) (fuel : Nat) (g x : Inst)
    (hres : getGLSLSystemValueInfo ctx st inVarLayout kind stage
      = (st1, some svi))
    (hrt : svi.requiredType = some rt)
    (hne : isTypeEqual rt inType = false) :
    (∃ (val : ScalarizedVal) (st' : St),
      createSimpleGLSLGlobalVarying ctx st inType inVarLayout inTypeLayout
          kind stage bindingIndex declarator
        = (st', .typeAdapter val rt inType)) ∧
    (materializeValue (fuel + 2) st2 (.typeAdapter (.value g) rt inType)
      = .ok ({ st2 with fresh := st2.fresh + 1 },
          [.mk st2.fresh .construct inType [g]],
          .mk st2.fresh .construct inType [g])) ∧
    (assign (fuel + 2) st2 (.typeAdapter (.address g) rt inType) (.value x)
      = .ok ({ st2 with fresh := st2.fresh + 2 },
          [.mk st2.fresh .construct rt [x],
           .mk (st2.fresh + 1) .store .voidT
             [g, .mk st2.fresh .construct rt [x]]])) := by
  refine ⟨?_, ?_, ?_⟩
  · simp only [createSimpleGLSLGlobalVarying, hres, hrt, hne]
    exact ⟨_, _, rfl⟩
  · simp [materializeValue, adaptType, adaptTypeInst, freshInst]
  · simp [assign, adaptType, adaptTypeInst, freshInst, emitStore]

/-- Witness for C4: SV_InstanceID declared as uint (required type
int). -/
theorem typeAdapter_roundtrip_witness :
    (∃ (val : ScalarizedVal) (st' : St),
      createSimpleGLSLGlobalVarying ⟨.vertex⟩ witnessSt (.basic .uintT)
          (witnessLeafVL "sv_instanceid")
          (.basicTL 0 [⟨.varyingInput, 0, 1⟩]) .varyingInput .vertex 0 []
        = (st', .typeAdapter val (.basic .intT) (.basic .uintT))) ∧
    (materializeValue 2 witnessSt
        (.typeAdapter (.value witnessGlobal) (.basic .intT) (.basic .uintT))
      = .ok ({ witnessSt with fresh := 1 },
          [.mk 0 .construct (.basic .uintT) [witnessGlobal]],
          .mk 0 .construct (.basic .uintT) [witnessGlobal])) ∧
    (assign 2 witnessSt
        (.typeAdapter (.address witnessGlobal) (.basic .intT)
          (.basic .uintT)) (.value witnessX)
      = .ok ({ witnessSt with fresh := 2 },
          [.mk 0 .construct (.basic .intT) [witnessX],
           .mk 1 .store .voidT
             [witnessGlobal, .mk 0 .construct (.basic .intT) [witnessX]]])) :=
  typeAdapter_roundtrip ⟨.vertex⟩ witnessSt witnessSt witnessSt
    (witnessLeafVL "sv_instanceid") (.basicTL 0 [⟨.varyingInput, 0, 1⟩])
    .varyingInput .vertex 0 [] (.basic .uintT) (.basic .intT)
    ⟨"gl_InstanceIndex", Option.none, some (.basic .intT)⟩ 0
    witnessGlobal witnessX rfl rfl (by decide)

/-- Witness for C10 at a concrete void parameter. -/
theorem legalizeEntryPointParameterForGLSL_void_unimplemented_witness :
    createGLSLGlobalVaryings ⟨.vertex⟩ witnessSt .voidT (witnessLeafVL "")
        .varyingInput Stage.vertex = .ok (witnessSt, .none) ∧
    materializeValue 1 witnessSt .none = .error "unimplemented" ∧
    legalizeEntryPointParameterForGLSL 1 ⟨.vertex⟩ witnessSt
        (witnessFunc .voidT 100) ⟨0, 0⟩ (.mk 100 (.other 0) .voidT [])
        (witnessLeafVL "") = .error "unimplemented" :=
  legalizeEntryPointParameterForGLSL_void_unimplemented 0 ⟨.vertex⟩ witnessSt
    (witnessFunc .voidT 100) ⟨0, 0⟩ (.mk 100 (.other 0) .voidT [])
    (witnessLeafVL "") rfl rfl

/-- A one-instruction body is trivially well formed. -/
theorem TermOnly_single (i : Inst) : TermOnly [i] := by
  intro l1 j l2 heq hop
  cases l1 with
  | nil =>
    simp only [List.nil_append, List.cons.injEq] at heq
    exact heq.2.symm
  | cons x xs =>
    simp only [List.cons_append, List.cons.injEq] at heq
    obtain ⟨-, heq2⟩ := heq
    cases xs <;> simp_all

/-- The returnVal scan of one well-formed block assigns the returned
value into the result global and leaves that assign's instructions
immediately before a terminal returnVoid. -/
theorem rewriteReturnInsts_shape (fuel : Nat) (rg : ScalarizedVal) :
    ∀ (l : List Inst) (st st2 : St) (l' : List Inst), TermOnly l →
      rewriteReturnInsts fuel st rg l = .ok (st2, l') →
      ∀ ii ∈ l, ii.op = IROp.returnVal →
      ∀ (v : Inst) (vrest : List Inst), ii.operands = v :: vrest →
      ∃ (stA stB : St) (emitted pre : List Inst) (rv : Inst),
        assign fuel stA rg (.value v) = .ok (stB, emitted) ∧
        rv.op = IROp.returnVoid ∧
        l' = pre ++ emitted ++ [rv] := by
  intro l
  induction l with
  | nil =>
    intro st st2 l' hterm h ii hii
    exact absurd hii (by simp)
  | cons jj rest ihl =>
    intro st st2 l' hterm h ii hii hop v vrest hv
    by_cases hopj : isReturnValOp jj.op = true
    · have hopeqj := isReturnValOp_eq hopj
      have hrest : rest = [] := hterm [] jj rest rfl hopeqj
      subst hrest
      rcases List.mem_cons.mp hii with rfl | hii2
      · simp only [rewriteReturnInsts, hopj, if_true] at h
        simp only [hv] at h
        cases hassign : assign fuel st rg (.value v) with
        | error e => rw [hassign] at h; exact absurd h (by simp)
        | ok p =>
          obtain ⟨stA, emitted⟩ := p
          rw [hassign] at h
          simp only [exceptBind_ok, freshInst, Except.ok.injEq,
            Prod.mk.injEq, List.nil_append] at h
          obtain ⟨-, hl⟩ := h
          exact ⟨st, stA, emitted, [],
            .mk stA.fresh .returnVoid .voidT [], hassign, rfl,
            by rw [← hl]; simp⟩
      · exact absurd hii2 (by simp)
    · simp only [rewriteReturnInsts, hopj, Bool.false_eq_true,
        if_false] at h
      cases hrec : rewriteReturnInsts fuel st rg rest with
      | error e => rw [hrec] at h; exact absurd h (by simp)
      | ok p =>
        obtain ⟨stR, rest2⟩ := p
        rw [hrec] at h
        simp only [exceptBind_ok, Except.ok.injEq, Prod.mk.injEq] at h
        obtain ⟨-, hl⟩ := h
        rcases List.mem_cons.mp hii with rfl | hii2
        · exact absurd (by simp [hop, isReturnValOp]) hopj
        · obtain ⟨stA, stB, em, pre, rv, ha, hrv, hsplit⟩ :=
            ihl st stR rest2 (TermOnly_tail hterm) hrec ii hii2 hop v
              vrest hv
          exact ⟨stA, stB, em, jj :: pre, rv, ha, hrv,
            by rw [← hl, hsplit]; simp⟩

/-- The returnVal scan over all well-formed blocks: every block that
returned a value v now ends in the assign of v into the result global
followed by a terminal returnVoid. -/
theorem rewriteReturnBlocks_shape (fuel : Nat) (rg : ScalarizedVal) :
    ∀ (bs : List Block) (st st2 : St) (bs' : List Block),
      (∀ b ∈ bs, TermOnly b.insts) →
      rewriteReturnBlocks fuel st rg bs = .ok (st2, bs') →
      ∀ j (hj : j < bs.length) (hj' : j < bs'.length),
        ∀ ii ∈ (bs.get ⟨j, hj⟩).insts, ii.op = IROp.returnVal →
        ∀ (v : Inst) (vrest : List Inst), ii.operands = v :: vrest →
        ∃ (stA stB : St) (emitted pre : List Inst) (rv : Inst),
          assign fuel stA rg (.value v) = .ok (stB, emitted) ∧
          rv.op = IROp.returnVoid ∧
          (bs'.get ⟨j, hj'⟩).insts = pre ++ emitted ++ [rv] := by
  intro bs
  induction bs with
  | nil =>
    intro st st2 bs' hterm h
    simp only [rewriteReturnBlocks, Except.ok.injEq, Prod.mk.injEq] at h
    obtain ⟨-, hl⟩ := h
    rw [← hl]
    intro j hj
    exact absurd hj (by simp)
  | cons b rest ihb =>
    intro st st2 bs' hterm h
    simp only [rewriteReturnBlocks] at h
    cases hri : rewriteReturnInsts fuel st rg b.insts with
    | error e => rw [hri] at h; exact absurd h (by simp)
    | ok p =>
      obtain ⟨stb, insts2⟩ := p
      rw [hri] at h
      simp only [exceptBind_ok] at h
      cases hrec : rewriteReturnBlocks fuel stb rg rest with
      | error e => rw [hrec] at h; exact absurd h (by simp)
      | ok p2 =>
        obtain ⟨stR, rest2⟩ := p2
        rw [hrec] at h
        simp only [exceptBind_ok, Except.ok.injEq, Prod.mk.injEq] at h
        obtain ⟨-, hl⟩ := h
        rw [← hl]
        intro j hj hj'
        cases j with
        | zero =>
          intro ii hii hop v vrest hv
          exact rewriteReturnInsts_shape fuel rg b.insts st stb insts2
            (hterm b (by simp)) hri ii hii hop v vrest hv
        | succ jj =>
          intro ii hii hop v vrest hv
          exact ihb stb stR rest2
            (fun b2 hb2 => hterm b2 (List.mem_cons_of_mem b hb2)) hrec jj
            (by simpa using hj) (by simpa using hj') ii hii hop v vrest hv

/-- C3: on an entry point with a non-void result whose blocks are well
formed (a returnVal can only be a terminator), the pass materializes a
result global, rewrites every returnVal over value v into the assign
of v into that global followed by a terminal returnVoid in the same
block with the old returnVal removed, and hands those blocks to the
parameter phase; consequently no returnVal instruction remains in any
block of the final function, the block count is kept, and every block
that returned a value still holds a returnVoid. -/
theorem return_normalization (fuel : Nat) (st st2 : St) (f f2 : IRFunc)
    (epl : EntryPointLayout)
    (hdec : findLayoutDecoration f.decorations = some (.entryPointL epl))
    (huses : f.hasUses = false)
    (hnv : isVoidType f.resultType = false)
    (hterm : ∀ b ∈ f.blocks, TermOnly b.insts)
    (hok : legalizeEntryPointForGLSL fuel st f = .ok (st2, f2)) :
    (∃ (st1 stB : St) (resultGlobal : ScalarizedVal)
      (blocks2 : List Block),
      createGLSLGlobalVaryings ⟨epl.stage⟩ st f.resultType
        epl.resultLayout .varyingOutput epl.stage
        = .ok (st1, resultGlobal) ∧
      rewriteReturnBlocks fuel st1 resultGlobal f.blocks
        = .ok (stB, blocks2) ∧
      legalizeEntryPointParams fuel ⟨epl.stage⟩ stB
        { f with hasUses := false, blocks := blocks2 } = .ok (st2, f2) ∧
      blocks2.length = f.blocks.length ∧
      (∀ b' ∈ blocks2, ∀ i ∈ b'.insts, i.op ≠ IROp.returnVal) ∧
      ∀ j (hj : j < f.blocks.length) (hj' : j < blocks2.length),
        ∀ ii ∈ (f.blocks.get ⟨j, hj⟩).insts, ii.op = IROp.returnVal →
        ∀ (v : Inst) (vrest : List Inst), ii.operands = v :: vrest →
        ∃ (stA stB' : St) (emitted pre : List Inst) (rv : Inst),
          assign fuel stA resultGlobal (.value v) = .ok (stB', emitted) ∧
          rv.op = IROp.returnVoid ∧
          (blocks2.get ⟨j, hj'⟩).insts = pre ++ emitted ++ [rv]) ∧
    (∀ b' ∈ f2.blocks, ∀ i ∈ b'.insts, i.op ≠ IROp.returnVal) ∧
    f2.blocks.length = f.blocks.length ∧
    ∀ j (hj : j < f.blocks.length) (hj' : j < f2.blocks.length),
      (∃ i ∈ (f.blocks.get ⟨j, hj⟩).insts, i.op = IROp.returnVal) →
      ∃ i' ∈ (f2.blocks.get ⟨j, hj'⟩).insts, i'.op = IROp.returnVoid := by
  unfold legalizeEntryPointForGLSL at hok
  rw [hdec] at hok
  simp [huses, hnv] at hok
  cases hcv : createGLSLGlobalVaryings ⟨epl.stage⟩ st f.resultType
    epl.resultLayout .varyingOutput epl.stage with
  | error e => simp [hcv] at hok
  | ok p =>
    obtain ⟨st1, resultGlobal⟩ := p
    simp only [hcv] at hok
    cases hrb : rewriteReturnBlocks fuel st1 resultGlobal f.blocks with
    | error e => simp [hrb] at hok
    | ok p2 =>
      obtain ⟨stB, blocks2⟩ := p2
      simp only [hrb] at hok
      obtain ⟨hlen, hnr, hrv⟩ := rewriteReturnBlocks_noret fuel resultGlobal
        f.blocks st1 stB blocks2 hterm hrb
      have hshape := rewriteReturnBlocks_shape fuel resultGlobal f.blocks
        st1 stB blocks2 hterm hrb
      have hm : BlocksMaintained blocks2 f2.blocks :=
        legalizeEntryPointParams_maintained fuel ⟨epl.stage⟩ stB
          { f with hasUses := false, blocks := blocks2 } st2 f2 hok
      obtain ⟨hlen2, hper⟩ := hm
      refine ⟨⟨st1, stB, resultGlobal, blocks2, rfl, hrb, hok, hlen,
        fun b' hb' => hnr b' hb', hshape⟩, ?_, hlen2.trans hlen, ?_⟩
      · intro b' hb' i hi
        obtain ⟨⟨j, hj'⟩, hget⟩ := List.mem_iff_get.mp hb'
        have hj : j < blocks2.length := by omega
        have hclean : noRetInst (f2.blocks.get ⟨j, hj'⟩).insts :=
          (hper j hj hj').1 (hnr _ (List.get_mem blocks2 j hj))
        rw [hget] at hclean
        exact hclean i hi
      · intro j hj hj' hex
        have hjb : j < blocks2.length := by omega
        exact (hper j hjb hj').2 IROp.returnVoid (hrv j hj hjb hex)

/-- Witness for C3: the float-returning vertex entry point. -/
theorem return_normalization_witness :
    ∃ (st2 : St) (f2 : IRFunc),
      legalizeEntryPointForGLSL 20 witnessSt witnessRetFunc
        = .ok (st2, f2) ∧
      (∃ (st1 stB : St) (resultGlobal : ScalarizedVal)
        (blocks2 : List Block),
        createGLSLGlobalVaryings ⟨.vertex⟩ witnessSt
          witnessRetFunc.resultType (witnessLeafVL "") .varyingOutput
          .vertex = .ok (st1, resultGlobal) ∧
        rewriteReturnBlocks 20 st1 resultGlobal witnessRetFunc.blocks
          = .ok (stB, blocks2) ∧
        legalizeEntryPointParams 20 ⟨.vertex⟩ stB
          { witnessRetFunc with hasUses := false, blocks := blocks2 }
          = .ok (st2, f2) ∧
        blocks2.length = witnessRetFunc.blocks.length ∧
        (∀ b' ∈ blocks2, ∀ i ∈ b'.insts, i.op ≠ IROp.returnVal) ∧
        ∀ j (hj : j < witnessRetFunc.blocks.length)
          (hj' : j < blocks2.length),
          ∀ ii ∈ (witnessRetFunc.blocks.get ⟨j, hj⟩).insts,
          ii.op = IROp.returnVal →
          ∀ (v : Inst) (vrest : List Inst), ii.operands = v :: vrest →
          ∃ (stA stB' : St) (emitted pre : List Inst) (rv : Inst),
            assign 20 stA resultGlobal (.value v) = .ok (stB', emitted) ∧
            rv.op = IROp.returnVoid ∧
            (blocks2.get ⟨j, hj'⟩).insts = pre ++ emitted ++ [rv]) ∧
      (∀ b' ∈ f2.blocks, ∀ i ∈ b'.insts, i.op ≠ IROp.returnVal) ∧
      f2.blocks.length = witnessRetFunc.blocks.length ∧
      ∀ j (hj : j < witnessRetFunc.blocks.length)
        (hj' : j < f2.blocks.length),
        (∃ i ∈ (witnessRetFunc.blocks.get ⟨j, hj⟩).insts,
          i.op = IROp.returnVal) →
        ∃ i' ∈ (f2.blocks.get ⟨j, hj'⟩).insts,
          i'.op = IROp.returnVoid := by
  cases hok : legalizeEntryPointForGLSL 20 witnessSt witnessRetFunc with
  | error e =>
    have hOk : exceptIsOk (legalizeEntryPointForGLSL 20 witnessSt
        witnessRetFunc) = true := rfl
    rw [hok] at hOk
    exact absurd hOk (by simp [exceptIsOk])
  | ok p =>
    have h := return_normalization 20 witnessSt p.1 witnessRetFunc p.2
      ⟨.vertex, witnessLeafVL ""⟩ rfl rfl rfl
      (by
        intro b hb
        simp only [witnessRetFunc, List.mem_singleton] at hb
        subst hb
        exact TermOnly_single _)
      (by rw [hok])
    exact ⟨p.1, p.2, by simp [hok], h.1, h.2.1, h.2.2.1, h.2.2.2⟩

/-- Witness for C7: the geometry entry point's stream parameter. -/
theorem stream_output_emitvertex_witness :
    ∃ (st2 : St) (f2 : IRFunc) (b2 : Builder),
      legalizeEntryPointParameterForGLSL 20 ⟨.geometry⟩ witnessSt
          witnessStreamFunc ⟨0, 0⟩ witnessStreamParam witnessStreamVL
        = .ok (st2, f2, b2) ∧
      ∃ (stV stB : St) (gv : ScalarizedVal) (blocks2 : List Block)
        (undef : Inst),
        createGLSLGlobalVaryings ⟨.geometry⟩ witnessSt
            (.streamOutT (.basic .floatT)) witnessStreamVL .varyingOutput
            .geometry = .ok (stV, gv) ∧
        legalizeStreamBlocks 20 stV gv witnessStreamFunc.blocks
          = .ok (stB, blocks2) ∧
        blocks2.length = witnessStreamFunc.blocks.length ∧
        (∀ j (hj : j < witnessStreamFunc.blocks.length)
          (hj' : j < blocks2.length),
          ∀ ii ∈ (witnessStreamFunc.blocks.get ⟨j, hj⟩).insts,
          isEmitVertexCall ii = true →
          ∀ arg, ii.getOperand 2 = some arg →
          ∃ (stA stB' : St) (emitted pre post : List Inst),
            assign 20 stA gv (.value arg) = .ok (stB', emitted) ∧
            (blocks2.get ⟨j, hj'⟩).insts = pre ++ emitted ++ ii :: post) ∧
        undef.op = .undefined ∧ undef.type = witnessStreamParam.type ∧
        f2 = replaceUsesWith
          (builderInsert { witnessStreamFunc with blocks := blocks2 }
            ⟨0, 0⟩ [undef]).1 witnessStreamParam.id undef ∧
        ∀ b' ∈ f2.blocks, ∀ i' ∈ b'.insts, ∀ o ∈ i'.operands,
          o.id = witnessStreamParam.id → o = undef := by
  cases hok : legalizeEntryPointParameterForGLSL 20 ⟨.geometry⟩ witnessSt
    witnessStreamFunc ⟨0, 0⟩ witnessStreamParam witnessStreamVL with
  | error e =>
    have hOk : exceptIsOk (legalizeEntryPointParameterForGLSL 20 ⟨.geometry⟩
        witnessSt witnessStreamFunc ⟨0, 0⟩ witnessStreamParam
        witnessStreamVL) = true := rfl
    rw [hok] at hOk
    exact absurd hOk (by simp [exceptIsOk])
  | ok p =>
    obtain ⟨st2, f2, b2⟩ := p
    exact ⟨st2, f2, b2, rfl,
      stream_output_emitvertex 20 ⟨.geometry⟩ witnessSt st2
        witnessStreamFunc f2 ⟨0, 0⟩ b2 witnessStreamParam witnessStreamVL
        (.streamOutT (.basic .floatT)) (.basic .floatT) rfl rfl hok⟩

/-- Witness for C6: the fragment entry point's inout parameter. -/
theorem out_inout_param_legalization_witness :
    ∃ (st2 : St) (f2 : IRFunc) (b2 : Builder),
      legalizeEntryPointParameterForGLSL 20 ⟨.fragment⟩ witnessSt
          witnessInOutFunc ⟨0, 0⟩ witnessInOutParam (witnessLeafVL "")
        = .ok (st2, f2, b2) ∧
      ∃ (localVariable : Inst) (f1 : IRFunc) (builder1 : Builder)
        (stPre stO stR : St) (gov : ScalarizedVal)
        (blocksR : List Block),
        localVariable.op = .varOp ∧
        localVariable.type = .ptrT (.basic .floatT) ∧
        (isInOutType witnessInOutParam.type = true →
          ∃ (stI stA : St) (giv : ScalarizedVal) (emittedIn : List Inst),
            createGLSLGlobalVaryings ⟨.fragment⟩
              { witnessSt with fresh := witnessSt.fresh + 1 }
              (.basic .floatT) (witnessLeafVL "") .varyingInput .fragment
              = .ok (stI, giv) ∧
            assign 20 stI (.address localVariable) giv
              = .ok (stA, emittedIn) ∧
            f1 = (builderInsert
              (builderInsert witnessInOutFunc ⟨0, 0⟩ [localVariable]).1
              (builderInsert witnessInOutFunc ⟨0, 0⟩ [localVariable]).2
              emittedIn).1 ∧
            builder1 = (builderInsert
              (builderInsert witnessInOutFunc ⟨0, 0⟩ [localVariable]).1
              (builderInsert witnessInOutFunc ⟨0, 0⟩ [localVariable]).2
              emittedIn).2 ∧
            stPre = stA) ∧
        (isInOutType witnessInOutParam.type = false →
          f1 = (builderInsert witnessInOutFunc ⟨0, 0⟩ [localVariable]).1 ∧
          builder1
            = (builderInsert witnessInOutFunc ⟨0, 0⟩ [localVariable]).2 ∧
          stPre = { witnessSt with fresh := witnessSt.fresh + 1 }) ∧
        (∀ b' ∈ (replaceUsesWith f1 witnessInOutParam.id
            localVariable).blocks,
          ∀ i' ∈ b'.insts, ∀ o ∈ i'.operands,
            o.id = witnessInOutParam.id → o = localVariable) ∧
        createGLSLGlobalVaryings ⟨.fragment⟩ stPre (.basic .floatT)
          (witnessLeafVL "") .varyingOutput .fragment = .ok (stO, gov) ∧
        legalizeOutReturns 20 stO gov (.address localVariable)
          (replaceUsesWith f1 witnessInOutParam.id localVariable).blocks
          = .ok (stR, blocksR) ∧
        f2 = { replaceUsesWith f1 witnessInOutParam.id localVariable with
          blocks := blocksR } ∧
        st2 = stR ∧
        b2 = builder1 ∧
        blocksR.length = (replaceUsesWith f1 witnessInOutParam.id
          localVariable).blocks.length ∧
        ∀ j (hj : j < (replaceUsesWith f1 witnessInOutParam.id
            localVariable).blocks.length)
          (hj' : j < blocksR.length) (t : Inst),
          ((replaceUsesWith f1 witnessInOutParam.id
            localVariable).blocks.get ⟨j, hj⟩).insts.getLast? = some t →
          isReturnOp t.op = true →
          ∃ (stA' stB' : St) (emitted : List Inst),
            assign 20 stA' gov (.address localVariable)
              = .ok (stB', emitted) ∧
            (blocksR.get ⟨j, hj'⟩).insts =
              ((replaceUsesWith f1 witnessInOutParam.id
                localVariable).blocks.get ⟨j, hj⟩).insts.dropLast
                ++ emitted ++ [t] := by
  cases hok : legalizeEntryPointParameterForGLSL 20 ⟨.fragment⟩ witnessSt
    witnessInOutFunc ⟨0, 0⟩ witnessInOutParam (witnessLeafVL "") with
  | error e =>
    have hOk : exceptIsOk (legalizeEntryPointParameterForGLSL 20
        ⟨.fragment⟩ witnessSt witnessInOutFunc ⟨0, 0⟩ witnessInOutParam
        (witnessLeafVL "")) = true := rfl
    rw [hok] at hOk
    exact absurd hOk (by simp [exceptIsOk])
  | ok p =>
    obtain ⟨st2, f2, b2⟩ := p
    exact ⟨st2, f2, b2, rfl,
      out_inout_param_legalization 20 ⟨.fragment⟩ witnessSt st2
        witnessInOutFunc f2 ⟨0, 0⟩ b2 witnessInOutParam (witnessLeafVL "")
        (.basic .floatT) rfl rfl rfl hok⟩

end SlangGLSL
